import Mathlib

/-!
Verification of the semantic query cache and hybrid retrieval pipeline of the
Neo4J-RAG-API repository.  The Python sources are shallowly embedded:

* `SemanticCache` (src/neo4jrag/services/cache/semantic_cache.py) becomes a
  pure state-passing model.  The Redis sorted set `semantic_cache:embeddings`
  is a list of `(member, score)` pairs kept in `(score, member)` order, the
  three per-id record families are partial maps `String → Option _`, and the
  stats hash is four natural-number counters.  Python floats are modelled as
  real numbers; `time.time()` timestamps as naturals (only their order is
  used by the code).  The md5 digest `_generate_query_id` is an opaque-to-us
  string function carried in the configuration.
* `VectorStore.hybrid_search` (src/neo4jrag/services/neo4j/vector_store.py)
  is embedded with the external vector index and the Neo4j context lookup as
  oracles; a raising lookup is an `Except.error`.
* the `query_rag` endpoint (src/neo4jrag/api/v1/endpoints/query.py) is
  embedded with the RAG pipeline as an oracle, instrumented with an event
  trace recording cache consultation, pipeline execution and cache writes.

Exceptions raised by the Python code are modelled with `Except`/sum types;
the `try`/`except` blocks of the source become explicit matches.
-/

namespace Neo4jRAG

/-! ## Data model -/

/-- One element of the `sources` list stored with a cached answer. -/
structure SourceInfo where
  text : String
  score : ℝ
  doc_title : Option String

/-- The JSON payload stored under `semantic_cache:answers:<id>` by
`SemanticCache.set` (answer, sources, search_type, processing_steps,
timestamp). -/
structure AnswerData where
  answer : String
  sources : List SourceInfo
  search_type : String
  processing_steps : List String
  timestamp : ℕ

/-- A stored embedding payload: `valid v` deserializes to the vector `v`;
`corrupt` models bytes on which `_deserialize_embedding`/`np.dot` raises. -/
inductive EmbPayload where
  | corrupt : EmbPayload
  | valid : List ℝ → EmbPayload

/-- The Redis keyspace used by `SemanticCache`: the ordered set of live entry
ids with their insertion-time scores, the three per-id record families
(each independently expirable), and the stats counters. -/
structure CacheState where
  zset : List (String × ℕ)
  embeddings : String → Option EmbPayload
  queries : String → Option String
  answers : String → Option AnswerData
  totalHits : ℕ
  totalMisses : ℕ
  totalCached : ℕ
  totalErrors : ℕ

/-- A freshly flushed store. -/
def emptyCache : CacheState :=
  { zset := []
    embeddings := fun _ => none
    queries := fun _ => none
    answers := fun _ => none
    totalHits := 0
    totalMisses := 0
    totalCached := 0
    totalErrors := 0 }

/-- Constructor arguments of `SemanticCache`, plus the query-id digest
function (`_generate_query_id`, md5 in the source). -/
structure CacheConfig where
  ttl : ℕ
  similarity_threshold : ℝ
  max_cache_size : ℕ
  qid : String → String

/-! ## Cosine similarity (`_cosine_similarity`) -/

/-- `np.dot` on equal-length vectors. -/
def dot (v1 v2 : List ℝ) : ℝ := (List.zipWith (fun a b => a * b) v1 v2).sum

/-- `np.linalg.norm`: the Euclidean norm. -/
noncomputable def vnorm (v : List ℝ) : ℝ := Real.sqrt (dot v v)

/-- `SemanticCache._cosine_similarity`: dot product over the product of the
norms, `0.0` when either norm is zero. -/
noncomputable def cosine_similarity (v1 v2 : List ℝ) : ℝ :=
  if vnorm v1 = 0 ∨ vnorm v2 = 0 then 0 else dot v1 v2 / (vnorm v1 * vnorm v2)

/-! ## The Redis sorted set -/

/-- Sorted-set ordering: by score, ties by member string. -/
def zltBool (p q : String × ℕ) : Bool :=
  decide (p.2 < q.2) || (decide (p.2 = q.2) && decide (p.1 < q.1))

/-- Insert a member at its rank position. -/
def zinsert (p : String × ℕ) : List (String × ℕ) → List (String × ℕ)
  | [] => [p]
  | q :: l => if zltBool p q then p :: q :: l else q :: zinsert p l

/-- `ZADD`: update-or-insert a member with a score. -/
def zadd (l : List (String × ℕ)) (member : String) (score : ℕ) :
    List (String × ℕ) :=
  zinsert (member, score) (l.filter (fun r => r.1 ≠ member))

namespace SemanticCache

/-- `SemanticCache.set`, storage-failure-free path: check the current size,
evict the rank-0 (oldest) member when at capacity (`ZREMRANGEBYRANK 0 0`),
register the id with the current time as score, write the three per-id
records, increment `total_cached`, return `True`. -/
def set (cfg : CacheConfig) (st : CacheState) (query : String)
    (embedding : List ℝ) (answer : String) (sources : List SourceInfo)
    (search_type : String) (processing_steps : List String) (now : ℕ) :
    Bool × CacheState :=
  let query_id := cfg.qid query
  let st1 := if cfg.max_cache_size ≤ st.zset.length
             then { st with zset := st.zset.drop 1 } else st
  (true,
   { st1 with
     zset := zadd st1.zset query_id now
     embeddings := fun i =>
       if i = query_id then some (.valid embedding) else st1.embeddings i
     queries := fun i =>
       if i = query_id then some query else st1.queries i
     answers := fun i =>
       if i = query_id then
         some ⟨answer, sources, search_type, processing_steps, now⟩
       else st1.answers i
     totalCached := st1.totalCached + 1 })

end SemanticCache

/-! ## The similarity scan of `SemanticCache.get` -/

/-- Outcome of the scan loop: `aborted` models the uncaught exception a
corrupt payload raises inside the loop (caught only by the outer handler),
`done` the loop running to completion. -/
inductive ScanOut where
  | aborted : ScanOut
  | done : ℝ → Option String → ScanOut

/-- The loop of `SemanticCache.get`: walk the enumerated ids; a missing
embedding record is skipped (`continue`); a corrupt one raises; otherwise the
running best is replaced only on strictly greater similarity. -/
noncomputable def scanBest (emb : String → Option EmbPayload) (q : List ℝ) :
    List String → ℝ → Option String → ScanOut
  | [], best, bid => .done best bid
  | id :: rest, best, bid =>
    match emb id with
    | none => scanBest emb q rest best bid
    | some .corrupt => .aborted
    | some (.valid v) =>
      if cosine_similarity q v > best then
        scanBest emb q rest (cosine_similarity q v) (some id)
      else
        scanBest emb q rest best bid

/-- Python string interpolation of the best-match id: interpolating the
value `None` yields the literal string used in the record keys. -/
def idStr : Option String → String
  | none => "None"
  | some s => s

/-- The dictionary `SemanticCache.get` returns on a hit: the stored answer
payload plus `cached`, `similarity` and `original_query`. -/
structure HitResult where
  answer : String
  sources : List SourceInfo
  search_type : String
  processing_steps : List String
  timestamp : ℕ
  cached : Bool
  similarity : ℝ
  original_query : String

namespace SemanticCache

/-- `SemanticCache.get`, with the backing store reachable: enumerate the
sorted set; an empty set is an immediate miss; the scan aborting (corrupt
payload) falls to the handler, which counts an error and returns `None`;
a best similarity below the threshold is a miss; otherwise the hit counter
is incremented, then the answer record is loaded (absent: `None` is
returned), then the question record (absent: `.decode()` raises and the
handler counts an error). -/
noncomputable def get (cfg : CacheConfig) (st : CacheState) (query : String)
    (embedding : List ℝ) : Option HitResult × CacheState :=
  let cached_ids := (st.zset.map Prod.fst)
  if cached_ids.isEmpty then
    (none, { st with totalMisses := st.totalMisses + 1 })
  else
    match scanBest st.embeddings embedding cached_ids 0 none with
    | .aborted => (none, { st with totalErrors := st.totalErrors + 1 })
    | .done best bid =>
      if best < cfg.similarity_threshold then
        (none, { st with totalMisses := st.totalMisses + 1 })
      else
        let st1 := { st with totalHits := st.totalHits + 1 }
        match st1.answers (idStr bid) with
        | none => (none, st1)
        | some ad =>
          match st1.queries (idStr bid) with
          | none => (none, { st1 with totalErrors := st1.totalErrors + 1 })
          | some oq =>
            (some ⟨ad.answer, ad.sources, ad.search_type,
                   ad.processing_steps, ad.timestamp, true, best, oq⟩,
             st1)

end SemanticCache

/-! ## `SemanticCache.get` with storage faults

Every Redis client call of `get` is given a tick number; the oracle
`faults : ℕ → Bool` decides which calls raise (an unreachable store raises on
every call).  An `Except.error` of the core carries the tick of the *next*
call together with the state at raise time; the public wrapper models the
`except` block, whose own `hincrby` on `total_errors` is itself a store call
and therefore may raise, in which case the exception escapes `get`. -/

/-- The scan loop with per-call faults on the per-id `GET` of the embedding
record. -/
noncomputable def scanBestF (faults : ℕ → Bool)
    (emb : String → Option EmbPayload) (q : List ℝ) :
    List String → ℕ → ℝ → Option String → Except ℕ (ℕ × ℝ × Option String)
  | [], t, best, bid => .ok (t, best, bid)
  | id :: rest, t, best, bid =>
    if faults t then .error (t + 1)
    else
      match emb id with
      | none => scanBestF faults emb q rest (t + 1) best bid
      | some .corrupt => .error (t + 1)
      | some (.valid v) =>
        if cosine_similarity q v > best then
          scanBestF faults emb q rest (t + 1) (cosine_similarity q v) (some id)
        else
          scanBestF faults emb q rest (t + 1) best bid

namespace SemanticCache

/-- The `try` block of `SemanticCache.get` under the fault oracle.  Call
ticks: 0 is `ZRANGE`; the scan then consumes one tick per enumerated id; the
remaining calls (`HINCRBY` on miss or hit, the answer `GET`, the question
`GET`) consume one tick each. -/
noncomputable def getCoreF (faults : ℕ → Bool) (cfg : CacheConfig)
    (st : CacheState) (embedding : List ℝ) :
    Except (ℕ × CacheState) (Option HitResult × CacheState) :=
  if faults 0 then .error (1, st)
  else
    let cached_ids := (st.zset.map Prod.fst)
    if cached_ids.isEmpty then
      if faults 1 then .error (2, st)
      else .ok (none, { st with totalMisses := st.totalMisses + 1 })
    else
      match scanBestF faults st.embeddings embedding cached_ids 1 0 none with
      | .error t => .error (t, st)
      | .ok (t, best, bid) =>
        if best < cfg.similarity_threshold then
          if faults t then .error (t + 1, st)
          else .ok (none, { st with totalMisses := st.totalMisses + 1 })
        else
          if faults t then .error (t + 1, st)
          else
            let st1 := { st with totalHits := st.totalHits + 1 }
            if faults (t + 1) then .error (t + 2, st1)
            else
              match st1.answers (idStr bid) with
              | none => .ok (none, st1)
              | some ad =>
                if faults (t + 2) then .error (t + 3, st1)
                else
                  match st1.queries (idStr bid) with
                  | none => .error (t + 3, st1)
                  | some oq =>
                    .ok (some ⟨ad.answer, ad.sources, ad.search_type,
                               ad.processing_steps, ad.timestamp, true, best,
                               oq⟩,
                         st1)

/-- `SemanticCache.get` under the fault oracle.  A raise inside the `try`
block reaches the handler, which performs `HINCRBY total_errors` — itself a
store call: if that call raises too, the exception propagates to the caller
of `get` (the `.error ()` result). -/
noncomputable def getF (faults : ℕ → Bool) (cfg : CacheConfig)
    (st : CacheState) (embedding : List ℝ) :
    Except Unit (Option HitResult × CacheState) :=
  match getCoreF faults cfg st embedding with
  | .ok r => .ok r
  | .error (t, stp) =>
    if faults t then .error ()
    else .ok (none, { stp with totalErrors := stp.totalErrors + 1 })

end SemanticCache

/-! ## `VectorStore.hybrid_search`

The vector index (`similarity_search`) is external; its ranked result list
is a parameter.  The per-hit Neo4j context query is the oracle `lookupCtx`:
`Except.error` models `execute_query` raising, `.ok none` an empty row list,
`.ok (some row)` the first returned row. -/

/-- A ranked hit coming back from `similarity_search`. -/
structure VectorHit where
  chunk_id : String
  text : String
  score : ℝ

/-- The single row of the per-chunk context query: the chunk text, the
optional previous/next neighbour texts and the owning document title (each
`null` when the OPTIONAL MATCH found nothing). -/
structure CtxRow where
  current : String
  prev : Option String
  next : Option String
  doc_title : Option String

/-- One element of the list `hybrid_search` returns. -/
structure EnrichedHit where
  text : String
  doc_title : Option String
  score : ℝ

/-- Python truthiness of an optional string: `None` and the empty string are
falsy. -/
def truthy : Option String → Bool
  | none => false
  | some s => s ≠ ""

/-- Interpolate an optional string the way the f-strings do once the value
is known truthy. -/
def optStr : Option String → String
  | none => ""
  | some s => s

/-- The enriched-text assembly of `hybrid_search`: an optional previous
block, the main block, an optional next block. -/
def buildCombined (ctx : CtxRow) : String :=
  (if truthy ctx.prev then "[Предыдущий]: " ++ optStr ctx.prev ++ "\n\n"
   else "")
  ++ "[Основной]: " ++ ctx.current
  ++ (if truthy ctx.next then "\n\n[Следующий]: " ++ optStr ctx.next
      else "")

/-- `VectorStore.hybrid_search`, given the vector-index results: for each
hit run the context query; a raising query propagates (there is no handler
in the loop), an empty row list skips the hit, a row contributes one
enriched result. -/
def hybrid_search (vector_results : List VectorHit)
    (lookupCtx : String → Except Unit (Option CtxRow)) :
    Except Unit (List EnrichedHit) :=
  match vector_results with
  | [] => .ok []
  | r :: rest =>
    match lookupCtx r.chunk_id with
    | .error e => .error e
    | .ok none => hybrid_search rest lookupCtx
    | .ok (some ctx) =>
      match hybrid_search rest lookupCtx with
      | .error e => .error e
      | .ok tail => .ok (⟨buildCombined ctx, ctx.doc_title, r.score⟩ :: tail)

/-! ## The `query_rag` endpoint

The Ollama embedding call and `rag_pipeline.ask` are external collaborators
and enter as parameters (`query_embedding`, `pipeline`); `pipeline` is an
`Except` since retrieval or generation may raise.  The run is instrumented
with an event trace. -/

/-- The result dictionary of `RAGPipeline.ask`. -/
structure RagResult where
  answer : String
  context : List EnrichedHit
  search_type : String
  steps : List String

/-- Observable events of one `query_rag` request. -/
inductive QEvent where
  | cacheGet : QEvent
  | pipelineRun : QEvent
  | cachePut : QEvent
deriving DecidableEq

/-- The response body (the fields the claims inspect). -/
structure QueryResponse where
  question : String
  answer : String
  processing_steps : List String
  cached : Bool

/-- The `query_rag` endpoint: embed (given), consult the cache, return the
cached answer on a hit; on a miss run the pipeline (whose raise is re-raised
as a 500, with no cache write), then cache the fresh result and return it. -/
noncomputable def query_rag (cfg : CacheConfig) (st : CacheState)
    (question : String) (query_embedding : List ℝ)
    (pipeline : Except Unit RagResult) (now : ℕ) :
    Except Unit QueryResponse × List QEvent × CacheState :=
  let g := SemanticCache.get cfg st question query_embedding
  match g.1 with
  | some hit =>
    (.ok ⟨question, hit.answer,
          hit.processing_steps ++ ["✓ Retrieved from cache"], true⟩,
     [.cacheGet], g.2)
  | none =>
    match pipeline with
    | .error e => (.error e, [.cacheGet, .pipelineRun], g.2)
    | .ok r =>
      let sources := r.context.map
        (fun c => SourceInfo.mk c.text c.score c.doc_title)
      let s := SemanticCache.set cfg g.2 question query_embedding r.answer
        sources r.search_type r.steps now
      (.ok ⟨question, r.answer, r.steps, false⟩,
       [.cacheGet, .pipelineRun, .cachePut], s.2)

/-! ## Scan lemmas -/

/-- The scanned live entries: each enumerated id whose embedding record is
readable, paired with its similarity to the query. -/
noncomputable def liveEntries (emb : String → Option EmbPayload) (q : List ℝ)
    (ids : List String) : List (String × ℝ) :=
  ids.filterMap (fun id =>
    match emb id with
    | some (.valid v) => some (id, cosine_similarity q v)
    | _ => none)

/-- The accumulator content of the scan loop, on the live entries. -/
noncomputable def foldScan :
    List (String × ℝ) → ℝ × Option String → ℝ × Option String
  | [], acc => acc
  | p :: l, acc =>
    if p.2 > acc.1 then foldScan l (p.2, some p.1) else foldScan l acc

/-- Removal of one member from the ordered id set, the per-id records kept:
the store view once an id's membership is gone. -/
def dropDead (st : CacheState) (id0 : String) : CacheState :=
  { st with zset := st.zset.filter (fun p => p.1 ≠ id0) }

/-- TTL expiry of a single answer record: the key vanishes, the ordered id
set (which `ZADD` wrote without a TTL) is untouched. -/
def expireAnswer (st : CacheState) (id0 : String) : CacheState :=
  { st with answers := fun i => if i = id0 then none else st.answers i }

/-- The four stats counters of a state. -/
def countersOf (st : CacheState) : ℕ × ℕ × ℕ × ℕ :=
  (st.totalHits, st.totalMisses, st.totalCached, st.totalErrors)

/-- Sequential insertion into a fresh cache: step `j` stores question
`qs j` with embedding `es j`, answer `answers j` and insertion time `j`. -/
def putSeq (cfg : CacheConfig) (qs : ℕ → String) (es : ℕ → List ℝ)
    (answers : ℕ → String) : ℕ → CacheState
  | 0 => emptyCache
  | k + 1 =>
    (SemanticCache.set cfg (putSeq cfg qs es answers k) (qs k) (es k)
      (answers k) [] "hybrid" [] k).2

theorem foldScan_no_update (l : List (String × ℝ)) (b : ℝ) (i : Option String)
    (h : ∀ p ∈ l, p.2 ≤ b) : foldScan l (b, i) = (b, i) := by
  induction l with
  | nil => rfl
  | cons p l ih =>
    have hp : ¬ p.2 > b := not_lt.mpr (h p (by simp))
    simp only [foldScan, hp, if_false]
    exact ih fun q hq => h q (by simp [hq])

theorem foldScan_lt (l : List (String × ℝ)) (b : ℝ) (i : Option String)
    (c : ℝ) (hb : b < c) (h : ∀ p ∈ l, p.2 < c) :
    (foldScan l (b, i)).1 < c := by
  induction l generalizing b i with
  | nil => exact hb
  | cons p l ih =>
    simp only [foldScan]
    by_cases hp : p.2 > b
    · simp only [hp, if_true]
      exact ih p.2 (some p.1) (h p (by simp)) fun q hq => h q (by simp [hq])
    · simp only [hp, if_false]
      exact ih b i hb fun q hq => h q (by simp [hq])

theorem foldScan_ge_init (l : List (String × ℝ)) (b : ℝ) (i : Option String) :
    b ≤ (foldScan l (b, i)).1 := by
  induction l generalizing b i with
  | nil => exact le_refl b
  | cons p l ih =>
    simp only [foldScan]
    by_cases hp : p.2 > b
    · simp only [hp, if_true]
      exact le_trans (le_of_lt hp) (ih p.2 (some p.1))
    · simp only [hp, if_false]; exact ih b i

theorem foldScan_ge_mem (l : List (String × ℝ)) (b : ℝ) (i : Option String) :
    ∀ p ∈ l, p.2 ≤ (foldScan l (b, i)).1 := by
  induction l generalizing b i with
  | nil => intro p hp; cases hp
  | cons q l ih =>
    intro p hp
    simp only [foldScan]
    rcases List.mem_cons.mp hp with h | h
    · subst h
      by_cases hq : p.2 > b
      · simp only [hq, if_true]; exact foldScan_ge_init l p.2 (some p.1)
      · simp only [hq, if_false]
        exact le_trans (not_lt.mp hq) (foldScan_ge_init l b i)
    · by_cases hq : q.2 > b
      · simp only [hq, if_true]; exact ih q.2 (some q.1) p h
      · simp only [hq, if_false]; exact ih b i p h

theorem foldScan_val_cases (l : List (String × ℝ)) (b : ℝ)
    (i : Option String) :
    (foldScan l (b, i)).1 = b ∨ ∃ p ∈ l, (foldScan l (b, i)).1 = p.2 := by
  induction l generalizing b i with
  | nil => exact Or.inl rfl
  | cons p l ih =>
    simp only [foldScan]
    by_cases hp : p.2 > b
    · simp only [hp, if_true]
      rcases ih p.2 (some p.1) with h | ⟨q, hq, h⟩
      · exact Or.inr ⟨p, by simp, h⟩
      · exact Or.inr ⟨q, by simp [hq], h⟩
    · simp only [hp, if_false]
      rcases ih b i with h | ⟨q, hq, h⟩
      · exact Or.inl h
      · exact Or.inr ⟨q, by simp [hq], h⟩

/-- The scan keeps the first entry attaining the maximum: every entry before
`p` strictly smaller, every entry after at most `p.2`, and the running best
below `p.2`, make `p` the final best match. -/
theorem foldScan_first_max (l1 l2 : List (String × ℝ)) (p : String × ℝ)
    (b : ℝ) (i : Option String) (hb : b < p.2)
    (h1 : ∀ q ∈ l1, q.2 < p.2) (h2 : ∀ q ∈ l2, q.2 ≤ p.2) :
    foldScan (l1 ++ p :: l2) (b, i) = (p.2, some p.1) := by
  induction l1 generalizing b i with
  | nil =>
    simp only [List.nil_append, foldScan, hb, if_true]
    exact foldScan_no_update l2 p.2 (some p.1) h2
  | cons q l1 ih =>
    have hq : q.2 < p.2 := h1 q (by simp)
    simp only [List.cons_append, foldScan]
    by_cases hqb : q.2 > b
    · simp only [hqb, if_true]
      exact ih q.2 (some q.1) hq fun r hr => h1 r (by simp [hr])
    · simp only [hqb, if_false]
      exact ih b i hb fun r hr => h1 r (by simp [hr])

/-- A corrupt-free scan runs to completion and computes the fold over the
live entries. -/
theorem scanBest_eq_foldScan (emb : String → Option EmbPayload) (q : List ℝ)
    (ids : List String) (b : ℝ) (i : Option String)
    (h : ∀ id ∈ ids, emb id ≠ some .corrupt) :
    scanBest emb q ids b i =
      .done (foldScan (liveEntries emb q ids) (b, i)).1
            (foldScan (liveEntries emb q ids) (b, i)).2 := by
  induction ids generalizing b i with
  | nil => rfl
  | cons id rest ih =>
    have hid := h id (by simp)
    have hrest : ∀ j ∈ rest, emb j ≠ some .corrupt :=
      fun j hj => h j (by simp [hj])
    simp only [scanBest, liveEntries, List.filterMap_cons]
    cases hemb : emb id with
    | none => simpa [liveEntries] using ih b i hrest
    | some payload =>
      cases payload with
      | corrupt => exact absurd hemb hid
      | valid v =>
        simp only [foldScan]
        by_cases hgt : cosine_similarity q v > b
        · simpa [hgt, liveEntries] using
            ih (cosine_similarity q v) (some id) hrest
        · simpa [hgt, liveEntries] using ih b i hrest

/-- The scan aborts exactly when some enumerated id has a corrupt embedding
payload. -/
theorem scanBest_aborted_iff (emb : String → Option EmbPayload) (q : List ℝ)
    (ids : List String) (b : ℝ) (i : Option String) :
    scanBest emb q ids b i = .aborted ↔
      ∃ id ∈ ids, emb id = some .corrupt := by
  induction ids generalizing b i with
  | nil => simp [scanBest]
  | cons id rest ih =>
    simp only [scanBest]
    cases hemb : emb id with
    | none => simp [ih b i, hemb]
    | some payload =>
      cases payload with
      | corrupt => simp [hemb]
      | valid v =>
        by_cases hgt : cosine_similarity q v > b
        · simp [hgt, ih (cosine_similarity q v) (some id), hemb]
        · simp [hgt, ih b i, hemb]

/-- Ids whose embedding record is unreadable are transparent to the scan. -/
theorem scanBest_skip_dead (emb : String → Option EmbPayload) (q : List ℝ)
    (id0 : String) (h : emb id0 = none) (ids : List String) (b : ℝ)
    (i : Option String) :
    scanBest emb q (ids.filter (fun id => id ≠ id0)) b i =
      scanBest emb q ids b i := by
  induction ids generalizing b i with
  | nil => rfl
  | cons id rest ih =>
    by_cases hid : id = id0
    · subst hid
      simp only [List.filter_cons, decide_not, scanBest, h]
      simpa using ih b i
    · simp only [List.filter_cons, hid, decide_not, decide_eq_true_eq]
      simp only [scanBest, if_pos (by simpa using hid)]
      cases hemb : emb id with
      | none => simpa [scanBest, hemb] using ih b i
      | some payload =>
        cases payload with
        | corrupt => simp [scanBest, hemb]
        | valid v =>
          by_cases hgt : cosine_similarity q v > b
          · simpa [scanBest, hemb, hgt] using
              ih (cosine_similarity q v) (some id)
          · simpa [scanBest, hemb, hgt] using ih b i

/-! ## Cosine lemmas -/

theorem dot_self_nonneg (v : List ℝ) : 0 ≤ dot v v := by
  have h : List.zipWith (fun a b => a * b) v v = v.map (fun a => a * a) := by
    induction v with
    | nil => rfl
    | cons a l ih => simp [List.zipWith, ih]
  rw [dot, h]
  apply List.sum_nonneg
  intro x hx
  rcases List.mem_map.mp hx with ⟨a, _, rfl⟩
  exact mul_self_nonneg a

/-- A vector whose self-dot-product is non-zero has cosine similarity
exactly 1 with itself. -/
theorem cosine_similarity_self (v : List ℝ) (h : dot v v ≠ 0) :
    cosine_similarity v v = 1 := by
  have hpos : 0 < dot v v := lt_of_le_of_ne (dot_self_nonneg v) (Ne.symm h)
  have hn : vnorm v ≠ 0 := by
    simp only [vnorm]
    exact ne_of_gt (Real.sqrt_pos.mpr hpos)
  have hn2 : ¬ (vnorm v = 0 ∨ vnorm v = 0) := by simp [hn]
  rw [cosine_similarity, if_neg hn2, vnorm,
    Real.mul_self_sqrt (dot_self_nonneg v)]
  exact div_self h

/-! ## Sorted-set lemmas -/

theorem zltBool_false_of_lt (p r : String × ℕ) (h : r.2 < p.2) :
    zltBool p r = false := by
  simp only [zltBool, Bool.or_eq_false_iff, Bool.and_eq_false_iff]
  constructor
  · simpa using Nat.not_lt.mpr (Nat.le_of_lt h)
  · left; simpa using Nat.ne_of_gt h

theorem zinsert_append (p : String × ℕ) (l : List (String × ℕ))
    (h : ∀ r ∈ l, zltBool p r = false) : zinsert p l = l ++ [p] := by
  induction l with
  | nil => rfl
  | cons r l ih =>
    simp only [zinsert, h r (by simp), Bool.false_eq_true, if_false,
      List.cons_append, List.cons.injEq, true_and]
    exact ih fun s hs => h s (by simp [hs])

/-- Adding a fresh member whose score exceeds every present score appends it
at the end of the ordered set. -/
theorem zadd_append (l : List (String × ℕ)) (member : String) (now : ℕ)
    (hsc : ∀ r ∈ l, r.2 < now) (hm : ∀ r ∈ l, r.1 ≠ member) :
    zadd l member now = l ++ [(member, now)] := by
  have hf : l.filter (fun r => r.1 ≠ member) = l := by
    rw [List.filter_eq_self]
    intro r hr
    simpa using hm r hr
  rw [zadd, hf]
  exact zinsert_append _ l fun r hr => zltBool_false_of_lt _ r (hsc r hr)

/-! ## Claim C1 -/

/-- Claim C1: for every query embedding and cache contents (with a positive
configured threshold, no corrupt payloads among the enumerated entries, and
stored embeddings of the query's dimension), `get` misses — returns `None`
and increments `total_misses` — exactly when every scanned live entry's
cosine similarity is strictly below `similarity_threshold`, and takes the
hit path — increments `total_hits` — exactly when some scanned live entry
reaches the threshold. -/
theorem claim_C1_threshold_boundary (cfg : CacheConfig) (st : CacheState)
    (query : String) (e : List ℝ)
    (hth : 0 < cfg.similarity_threshold)
    (hnc : ∀ id ∈ st.zset.map Prod.fst, st.embeddings id ≠ some .corrupt)
    (hdim : ∀ id v, st.embeddings id = some (.valid v) →
      v.length = e.length) :
    (((SemanticCache.get cfg st query e).1 = none ∧
      (SemanticCache.get cfg st query e).2.totalMisses =
        st.totalMisses + 1) ↔
      ∀ s ∈ (liveEntries st.embeddings e (st.zset.map Prod.fst)).map
          Prod.snd, s < cfg.similarity_threshold)
    ∧ ((SemanticCache.get cfg st query e).2.totalHits =
        st.totalHits + 1 ↔
      ∃ s ∈ (liveEntries st.embeddings e (st.zset.map Prod.fst)).map
          Prod.snd, cfg.similarity_threshold ≤ s) := by
  by_cases hemp : (st.zset.map Prod.fst).isEmpty
  · have hids : st.zset.map Prod.fst = [] := by simpa using hemp
    have hL : liveEntries st.embeddings e (st.zset.map Prod.fst) = [] := by
      simp [liveEntries, hids]
    have hout : SemanticCache.get cfg st query e =
        (none, { st with totalMisses := st.totalMisses + 1 }) := by
      simp [SemanticCache.get, hemp]
    rw [hout, hL]
    simp
  · have hscan := scanBest_eq_foldScan st.embeddings e
      (st.zset.map Prod.fst) 0 none hnc
    by_cases hlt :
        (foldScan (liveEntries st.embeddings e (st.zset.map Prod.fst))
          (0, none)).1 < cfg.similarity_threshold
    · have hout : SemanticCache.get cfg st query e =
          (none, { st with totalMisses := st.totalMisses + 1 }) := by
        simp [SemanticCache.get, hemp, hscan, hlt]
      rw [hout]
      constructor
      · constructor
        · intro _ s hs
          rcases List.mem_map.mp hs with ⟨p, hp, rfl⟩
          exact lt_of_le_of_lt (foldScan_ge_mem _ 0 none p hp) hlt
        · intro _
          exact ⟨rfl, rfl⟩
      · constructor
        · intro h
          exact absurd h (by simp)
        · rintro ⟨s, hs, hths⟩
          rcases List.mem_map.mp hs with ⟨p, hp, rfl⟩
          exact absurd (lt_of_le_of_lt (foldScan_ge_mem _ 0 none p hp) hlt)
            (not_lt.mpr hths)
    · have hthle : cfg.similarity_threshold ≤
          (foldScan (liveEntries st.embeddings e (st.zset.map Prod.fst))
            (0, none)).1 := not_lt.mp hlt
      have hex : ∃ s ∈ (liveEntries st.embeddings e
          (st.zset.map Prod.fst)).map Prod.snd,
          cfg.similarity_threshold ≤ s := by
        rcases foldScan_val_cases
            (liveEntries st.embeddings e (st.zset.map Prod.fst)) 0 none with
          h0 | ⟨p, hp, hv⟩
        · rw [h0] at hthle
          exact absurd hthle (not_le.mpr hth)
        · exact ⟨p.2, List.mem_map_of_mem Prod.snd hp, hv ▸ hthle⟩
      have hst : (SemanticCache.get cfg st query e).2.totalHits =
            st.totalHits + 1 ∧
          (SemanticCache.get cfg st query e).2.totalMisses =
            st.totalMisses := by
        simp only [SemanticCache.get, hemp, Bool.false_eq_true, if_false,
          hscan, hlt]
        rcases hans : st.answers (idStr
            (foldScan (liveEntries st.embeddings e (st.zset.map Prod.fst))
              (0, none)).2) with _ | ad
        · simp [hans]
        · rcases hq : st.queries (idStr
              (foldScan (liveEntries st.embeddings e
                (st.zset.map Prod.fst)) (0, none)).2) with _ | oq
          · simp [hans, hq]
          · simp [hans, hq]
      constructor
      · constructor
        · rintro ⟨-, hm⟩
          rw [hst.2] at hm
          exact absurd hm (by omega)
        · intro hall
          rcases hex with ⟨s, hs, hths⟩
          exact absurd (hall s hs) (not_lt.mpr hths)
      · rw [hst.1]
        exact ⟨fun _ => hex, fun _ => rfl⟩

/-- Concrete boundary check for claim C1 with `similarity_threshold = 0.95`:
a single cached unit vector scanned against a query whose cosine similarity
to it is exactly `0.9499` misses, and against one at exactly `0.95` the
cache hits. -/
theorem claim_C1_threshold_boundary_witness :
    ((SemanticCache.get ⟨3600, 19 / 20, 10000, fun s => s⟩
        { emptyCache with
          zset := [("a", 0)]
          embeddings := fun i =>
            if i = "a" then some (.valid [1, 0]) else none
          queries := fun i => if i = "a" then some "qa" else none
          answers := fun i =>
            if i = "a" then some ⟨"ansA", [], "hybrid", [], 0⟩ else none }
        "q" [9499 / 10000, Real.sqrt 9768999 / 10000]).1 = none ∧
      (SemanticCache.get ⟨3600, 19 / 20, 10000, fun s => s⟩
        { emptyCache with
          zset := [("a", 0)]
          embeddings := fun i =>
            if i = "a" then some (.valid [1, 0]) else none
          queries := fun i => if i = "a" then some "qa" else none
          answers := fun i =>
            if i = "a" then some ⟨"ansA", [], "hybrid", [], 0⟩ else none }
        "q" [9499 / 10000, Real.sqrt 9768999 / 10000]).2.totalMisses = 1)
    ∧ (SemanticCache.get ⟨3600, 19 / 20, 10000, fun s => s⟩
        { emptyCache with
          zset := [("a", 0)]
          embeddings := fun i =>
            if i = "a" then some (.valid [1, 0]) else none
          queries := fun i => if i = "a" then some "qa" else none
          answers := fun i =>
            if i = "a" then some ⟨"ansA", [], "hybrid", [], 0⟩ else none }
        "q" [19 / 20, Real.sqrt 39 / 20]).2.totalHits = 1 := by
  have hsq1 : Real.sqrt 9768999 * Real.sqrt 9768999 = 9768999 :=
    Real.mul_self_sqrt (by norm_num)
  have hsq2 : Real.sqrt 39 * Real.sqrt 39 = 39 :=
    Real.mul_self_sqrt (by norm_num)
  have hstored : dot [(1 : ℝ), 0] [(1 : ℝ), 0] = 1 := by
    simp [dot]
  have hnstored : vnorm [(1 : ℝ), 0] = 1 := by
    rw [vnorm, hstored, Real.sqrt_one]
  have hdA : dot [(9499 : ℝ) / 10000, Real.sqrt 9768999 / 10000]
      [(9499 : ℝ) / 10000, Real.sqrt 9768999 / 10000] = 1 := by
    simp only [dot, List.zipWith, List.sum_cons, List.sum_nil]
    rw [div_mul_div_comm, div_mul_div_comm, hsq1]
    norm_num
  have hdB : dot [(19 : ℝ) / 20, Real.sqrt 39 / 20]
      [(19 : ℝ) / 20, Real.sqrt 39 / 20] = 1 := by
    simp only [dot, List.zipWith, List.sum_cons, List.sum_nil]
    rw [div_mul_div_comm, div_mul_div_comm, hsq2]
    norm_num
  have hnA : vnorm [(9499 : ℝ) / 10000, Real.sqrt 9768999 / 10000] = 1 := by
    rw [vnorm, hdA, Real.sqrt_one]
  have hnB : vnorm [(19 : ℝ) / 20, Real.sqrt 39 / 20] = 1 := by
    rw [vnorm, hdB, Real.sqrt_one]
  have hcosA : cosine_similarity
      [(9499 : ℝ) / 10000, Real.sqrt 9768999 / 10000] [(1 : ℝ), 0] =
      9499 / 10000 := by
    rw [cosine_similarity, if_neg (by rw [hnA, hnstored]; norm_num),
      hnA, hnstored]
    simp [dot]
  have hcosB : cosine_similarity
      [(19 : ℝ) / 20, Real.sqrt 39 / 20] [(1 : ℝ), 0] = 19 / 20 := by
    rw [cosine_similarity, if_neg (by rw [hnB, hnstored]; norm_num),
      hnB, hnstored]
    simp [dot]
  have hAll := claim_C1_threshold_boundary ⟨3600, 19 / 20, 10000, fun s => s⟩
    { emptyCache with
      zset := [("a", 0)]
      embeddings := fun i =>
        if i = "a" then some (.valid [1, 0]) else none
      queries := fun i => if i = "a" then some "qa" else none
      answers := fun i =>
        if i = "a" then some ⟨"ansA", [], "hybrid", [], 0⟩ else none }
    "q" [9499 / 10000, Real.sqrt 9768999 / 10000]
    (by norm_num)
    (by intro id hid; simp at hid; subst hid; simp)
    (by
      intro id v h
      by_cases hi : id = "a"
      · subst hi; simp at h; subst h; rfl
      · simp [hi] at h)
  have hBll := claim_C1_threshold_boundary ⟨3600, 19 / 20, 10000, fun s => s⟩
    { emptyCache with
      zset := [("a", 0)]
      embeddings := fun i =>
        if i = "a" then some (.valid [1, 0]) else none
      queries := fun i => if i = "a" then some "qa" else none
      answers := fun i =>
        if i = "a" then some ⟨"ansA", [], "hybrid", [], 0⟩ else none }
    "q" [19 / 20, Real.sqrt 39 / 20]
    (by norm_num)
    (by intro id hid; simp at hid; subst hid; simp)
    (by
      intro id v h
      by_cases hi : id = "a"
      · subst hi; simp at h; subst h; rfl
      · simp [hi] at h)
  refine ⟨hAll.1.mpr ?_, hBll.2.mpr ?_⟩
  · intro s hs
    simp [liveEntries] at hs
    subst hs
    rw [hcosA]
    norm_num
  · refine ⟨cosine_similarity [(19 : ℝ) / 20, Real.sqrt 39 / 20]
      [(1 : ℝ), 0], ?_, ?_⟩
    · simp [liveEntries]
    · rw [hcosB]

/-! ## Claim C2 -/

/-- The ids of the live entries form a sublist of the enumerated ids. -/
theorem liveEntries_map_fst_sublist (emb : String → Option EmbPayload)
    (q : List ℝ) (ids : List String) :
    List.Sublist ((liveEntries emb q ids).map Prod.fst) ids := by
  induction ids with
  | nil => simp [liveEntries]
  | cons id rest ih =>
    simp only [liveEntries, List.filterMap_cons]
    cases hemb : emb id with
    | none => exact List.Sublist.cons id ih
    | some payload =>
      cases payload with
      | corrupt => exact List.Sublist.cons id ih
      | valid v =>
        simpa [liveEntries] using List.Sublist.cons₂ id ih

/-- Claim C2: during `get`'s scan in the store's enumeration order, the best
match is only replaced on strictly greater similarity, so when two live
entries (positions `i < j`) both attain the maximal similarity `m` (at or
above the threshold, so a hit is returned), the returned answer, question
text and best-match id are those of the earliest entry attaining `m` — at a
position at most `i`, with every earlier entry strictly below `m`, and with
an id different from the later tying entry's. -/
theorem claim_C2_strict_greater_tiebreak (cfg : CacheConfig)
    (st : CacheState) (query : String) (e : List ℝ)
    (A : String → AnswerData) (Q : String → String) (m : ℝ) (i j : ℕ)
    (hth : 0 < cfg.similarity_threshold)
    (hnc : ∀ id ∈ st.zset.map Prod.fst, st.embeddings id ≠ some .corrupt)
    (hdim : ∀ id v, st.embeddings id = some (.valid v) →
      v.length = e.length)
    (hans : ∀ id, st.answers id = some (A id))
    (hqs : ∀ id, st.queries id = some (Q id))
    (hnd : (st.zset.map Prod.fst).Nodup)
    (hij : i < j)
    (hj : j < (liveEntries st.embeddings e (st.zset.map Prod.fst)).length)
    (hi_m : ((liveEntries st.embeddings e (st.zset.map Prod.fst)).get
      ⟨i, lt_trans hij hj⟩).2 = m)
    (hj_m : ((liveEntries st.embeddings e (st.zset.map Prod.fst)).get
      ⟨j, hj⟩).2 = m)
    (hmax : ∀ p ∈ liveEntries st.embeddings e (st.zset.map Prod.fst),
      p.2 ≤ m)
    (hhit : cfg.similarity_threshold ≤ m) :
    ∃ k, ∃ hk : k <
        (liveEntries st.embeddings e (st.zset.map Prod.fst)).length,
      k ≤ i ∧
      ((liveEntries st.embeddings e (st.zset.map Prod.fst)).get
        ⟨k, hk⟩).2 = m ∧
      (∀ k' (hk' : k' <
          (liveEntries st.embeddings e (st.zset.map Prod.fst)).length),
        k' < k →
        ((liveEntries st.embeddings e (st.zset.map Prod.fst)).get
          ⟨k', hk'⟩).2 < m) ∧
      ((liveEntries st.embeddings e (st.zset.map Prod.fst)).get
        ⟨k, hk⟩).1 ≠
        ((liveEntries st.embeddings e (st.zset.map Prod.fst)).get
          ⟨j, hj⟩).1 ∧
      (SemanticCache.get cfg st query e).1 =
        some ⟨(A ((liveEntries st.embeddings e
                (st.zset.map Prod.fst)).get ⟨k, hk⟩).1).answer,
              (A ((liveEntries st.embeddings e
                (st.zset.map Prod.fst)).get ⟨k, hk⟩).1).sources,
              (A ((liveEntries st.embeddings e
                (st.zset.map Prod.fst)).get ⟨k, hk⟩).1).search_type,
              (A ((liveEntries st.embeddings e
                (st.zset.map Prod.fst)).get ⟨k, hk⟩).1).processing_steps,
              (A ((liveEntries st.embeddings e
                (st.zset.map Prod.fst)).get ⟨k, hk⟩).1).timestamp,
              true, m,
              Q ((liveEntries st.embeddings e
                (st.zset.map Prod.fst)).get ⟨k, hk⟩).1⟩ := by
  classical
  set L := liveEntries st.embeddings e (st.zset.map Prod.fst) with hLdef
  have hP : ∃ k, ∃ hk : k < L.length, (L.get ⟨k, hk⟩).2 = m :=
    ⟨i, lt_trans hij hj, hi_m⟩
  have hk := Nat.find_spec hP
  rcases hk with ⟨hklen, hkm⟩
  refine ⟨Nat.find hP, hklen, Nat.find_min' hP ⟨lt_trans hij hj, hi_m⟩,
    hkm, ?_, ?_, ?_⟩
  · intro k' hk' hlt
    rcases lt_or_eq_of_le (hmax (L.get ⟨k', hk'⟩) (L.get_mem _ _)) with
      h | h
    · exact h
    · exact absurd ⟨hk', h⟩ (Nat.find_min hP hlt)
  · intro heq
    have hsub := liveEntries_map_fst_sublist st.embeddings e
      (st.zset.map Prod.fst)
    have hndL : (L.map Prod.fst).Nodup := List.Sublist.nodup hsub hnd
    have hkj : Nat.find hP ≠ j :=
      Nat.ne_of_lt (lt_of_le_of_lt (Nat.find_min' hP
        ⟨lt_trans hij hj, hi_m⟩) hij)
    have hlenm : L.length = (L.map Prod.fst).length := by simp
    have hgk : (L.map Prod.fst).get ⟨Nat.find hP, by simpa using hklen⟩ =
        (L.get ⟨Nat.find hP, hklen⟩).1 := by
      simp [List.get_map]
    have hgj : (L.map Prod.fst).get ⟨j, by simpa using hj⟩ =
        (L.get ⟨j, hj⟩).1 := by
      simp [List.get_map]
    have := List.Nodup.get_inj_iff hndL
      (i := ⟨Nat.find hP, by simpa using hklen⟩)
      (j := ⟨j, by simpa using hj⟩)
    rw [hgk, hgj, heq] at this
    exact hkj (by simpa using this.mp rfl)
  · -- the returned payload
    have hids_ne : ¬ (st.zset.map Prod.fst).isEmpty := by
      intro habs
      have : st.zset.map Prod.fst = [] := by simpa using habs
      have hL0 : L.length = 0 := by
        rw [hLdef, this]
        rfl
      omega
    have hdecomp : L = L.take (Nat.find hP) ++
        L.get ⟨Nat.find hP, hklen⟩ :: L.drop (Nat.find hP + 1) := by
      conv_lhs => rw [← List.take_append_drop (Nat.find hP) L]
      rw [List.drop_eq_get_cons hklen]
    have htake : ∀ p ∈ L.take (Nat.find hP), p.2 < m := by
      intro p hp
      rcases List.mem_iff_get.mp hp with ⟨⟨idx, hidx⟩, hpe⟩
      have hidxk : idx < Nat.find hP := by
        have h2 := hidx
        rw [List.length_take] at h2
        exact lt_of_lt_of_le h2 (min_le_left _ _)
      have hidxL : idx < L.length := lt_trans hidxk hklen
      have hget : (L.take (Nat.find hP)).get ⟨idx, hidx⟩ =
          L.get ⟨idx, hidxL⟩ := List.get_take' L
      rw [hget] at hpe
      rcases lt_or_eq_of_le (hmax p (hpe ▸ L.get_mem _ _)) with h | h
      · exact h
      · rw [← hpe] at h
        exact absurd ⟨hidxL, h⟩ (Nat.find_min hP hidxk)
    have hdrop : ∀ p ∈ L.drop (Nat.find hP + 1), p.2 ≤ m :=
      fun p hp => hmax p (List.drop_subset _ L hp)
    have hfold : foldScan L (0, none) =
        (m, some (L.get ⟨Nat.find hP, hklen⟩).1) := by
      have hmain := foldScan_first_max (L.take (Nat.find hP))
        (L.drop (Nat.find hP + 1)) (L.get ⟨Nat.find hP, hklen⟩) 0 none
        (by rw [hkm]; exact lt_of_lt_of_le hth hhit)
        (by intro q hq; rw [hkm]; exact htake q hq)
        (by intro q hq; rw [hkm]; exact hdrop q hq)
      conv_lhs => rw [hdecomp]
      rw [hmain, hkm]
    have hscan := scanBest_eq_foldScan st.embeddings e
      (st.zset.map Prod.fst) 0 none hnc
    rw [← hLdef] at hscan
    rw [hfold] at hscan
    have hnl : ¬ m < cfg.similarity_threshold := not_lt.mpr hhit
    simp only [SemanticCache.get, hids_ne, Bool.false_eq_true, if_false,
      hscan, hnl, idStr, hans, hqs]

/-- Concrete tie for claim C2: entries "a" (stored `[1,0]`) and "b" (stored
`[2,0]`) both have similarity exactly 1 with the query `[1,0]`; the
earlier-enumerated "a" is the one returned. -/
theorem claim_C2_strict_greater_tiebreak_witness :
    (SemanticCache.get ⟨3600, 19 / 20, 10000, fun s => s⟩
      { emptyCache with
        zset := [("a", 0), ("b", 1)]
        embeddings := fun i =>
          if i = "a" then some (.valid [1, 0])
          else if i = "b" then some (.valid [2, 0]) else none
        queries := fun i => some ("q-" ++ i)
        answers := fun i => some ⟨"ans-" ++ i, [], "hybrid", [], 0⟩ }
      "q" [1, 0]).1 =
      some ⟨"ans-a", [], "hybrid", [], 0, true, 1, "q-a"⟩ := by
  have hc1 : cosine_similarity [(1 : ℝ), 0] [(1 : ℝ), 0] = 1 :=
    cosine_similarity_self _ (by norm_num [dot])
  have hs4 : Real.sqrt 4 = 2 := by
    rw [show (4 : ℝ) = 2 ^ 2 by norm_num,
      Real.sqrt_sq (by norm_num : (0 : ℝ) ≤ 2)]
  have hn1 : vnorm [(1 : ℝ), 0] = 1 := by
    rw [vnorm, show dot [(1 : ℝ), 0] [(1 : ℝ), 0] = 1 by norm_num [dot],
      Real.sqrt_one]
  have hn2 : vnorm [(2 : ℝ), 0] = 2 := by
    rw [vnorm, show dot [(2 : ℝ), 0] [(2 : ℝ), 0] = 4 by norm_num [dot],
      hs4]
  have hc2 : cosine_similarity [(1 : ℝ), 0] [(2 : ℝ), 0] = 1 := by
    rw [cosine_similarity, if_neg (by rw [hn1, hn2]; norm_num), hn1, hn2]
    norm_num [dot]
  have hL : liveEntries
      ({ emptyCache with
        zset := [("a", 0), ("b", 1)]
        embeddings := fun i =>
          if i = "a" then some (.valid [1, 0])
          else if i = "b" then some (.valid [2, 0]) else none
        queries := fun i => some ("q-" ++ i)
        answers := fun i =>
          some ⟨"ans-" ++ i, [], "hybrid", [], 0⟩ } : CacheState).embeddings
      [1, 0]
      (({ emptyCache with
        zset := [("a", 0), ("b", 1)]
        embeddings := fun i =>
          if i = "a" then some (.valid [1, 0])
          else if i = "b" then some (.valid [2, 0]) else none
        queries := fun i => some ("q-" ++ i)
        answers := fun i =>
          some ⟨"ans-" ++ i, [], "hybrid", [], 0⟩ } : CacheState).zset.map
        Prod.fst) =
      [("a", cosine_similarity [1, 0] [1, 0]),
       ("b", cosine_similarity [1, 0] [2, 0])] := by
    simp [liveEntries]
  have hj2 : 1 < (liveEntries
      ({ emptyCache with
        zset := [("a", 0), ("b", 1)]
        embeddings := fun i =>
          if i = "a" then some (.valid [1, 0])
          else if i = "b" then some (.valid [2, 0]) else none
        queries := fun i => some ("q-" ++ i)
        answers := fun i =>
          some ⟨"ans-" ++ i, [], "hybrid", [], 0⟩ } : CacheState).embeddings
      [1, 0]
      (({ emptyCache with
        zset := [("a", 0), ("b", 1)]
        embeddings := fun i =>
          if i = "a" then some (.valid [1, 0])
          else if i = "b" then some (.valid [2, 0]) else none
        queries := fun i => some ("q-" ++ i)
        answers := fun i =>
          some ⟨"ans-" ++ i, [], "hybrid", [], 0⟩ } : CacheState).zset.map
        Prod.fst)).length := by
    rw [hL]
    norm_num
  have hget0 : ∀ h, (liveEntries
      ({ emptyCache with
        zset := [("a", 0), ("b", 1)]
        embeddings := fun i =>
          if i = "a" then some (.valid [1, 0])
          else if i = "b" then some (.valid [2, 0]) else none
        queries := fun i => some ("q-" ++ i)
        answers := fun i =>
          some ⟨"ans-" ++ i, [], "hybrid", [], 0⟩ } : CacheState).embeddings
      [1, 0]
      (({ emptyCache with
        zset := [("a", 0), ("b", 1)]
        embeddings := fun i =>
          if i = "a" then some (.valid [1, 0])
          else if i = "b" then some (.valid [2, 0]) else none
        queries := fun i => some ("q-" ++ i)
        answers := fun i =>
          some ⟨"ans-" ++ i, [], "hybrid", [], 0⟩ } : CacheState).zset.map
        Prod.fst)).get ⟨0, h⟩ =
      ("a", cosine_similarity [1, 0] [1, 0]) := by
    intro h
    rw [List.get_of_eq hL]
    rfl
  have hget1 : ∀ h, (liveEntries
      ({ emptyCache with
        zset := [("a", 0), ("b", 1)]
        embeddings := fun i =>
          if i = "a" then some (.valid [1, 0])
          else if i = "b" then some (.valid [2, 0]) else none
        queries := fun i => some ("q-" ++ i)
        answers := fun i =>
          some ⟨"ans-" ++ i, [], "hybrid", [], 0⟩ } : CacheState).embeddings
      [1, 0]
      (({ emptyCache with
        zset := [("a", 0), ("b", 1)]
        embeddings := fun i =>
          if i = "a" then some (.valid [1, 0])
          else if i = "b" then some (.valid [2, 0]) else none
        queries := fun i => some ("q-" ++ i)
        answers := fun i =>
          some ⟨"ans-" ++ i, [], "hybrid", [], 0⟩ } : CacheState).zset.map
        Prod.fst)).get ⟨1, h⟩ =
      ("b", cosine_similarity [1, 0] [2, 0]) := by
    intro h
    rw [List.get_of_eq hL]
    rfl
  obtain ⟨k, hk, hki, hkm, -, -, hres⟩ :=
    claim_C2_strict_greater_tiebreak ⟨3600, 19 / 20, 10000, fun s => s⟩
      { emptyCache with
        zset := [("a", 0), ("b", 1)]
        embeddings := fun i =>
          if i = "a" then some (.valid [1, 0])
          else if i = "b" then some (.valid [2, 0]) else none
        queries := fun i => some ("q-" ++ i)
        answers := fun i => some ⟨"ans-" ++ i, [], "hybrid", [], 0⟩ }
      "q" [1, 0]
      (fun id => ⟨"ans-" ++ id, [], "hybrid", [], 0⟩)
      (fun id => "q-" ++ id) 1 0 1
      (by norm_num)
      (by
        intro id hid
        simp only [List.map_cons, List.map_nil, List.mem_cons,
          List.not_mem_nil, or_false] at hid
        rcases hid with rfl | rfl <;> simp)
      (by
        intro id v h
        by_cases ha : id = "a"
        · subst ha
          simp at h
          subst h
          rfl
        · by_cases hb : id = "b"
          · subst hb
            simp [ha] at h
            subst h
            rfl
          · simp [ha, hb] at h)
      (fun id => rfl) (fun id => rfl)
      (by simp)
      (by norm_num)
      hj2
      (by rw [hget0]; exact hc1)
      (by rw [hget1]; exact hc2)
      (by
        intro p hp
        rw [hL] at hp
        simp only [List.mem_cons, List.not_mem_nil, or_false] at hp
        rcases hp with rfl | rfl
        · rw [hc1]
        · rw [hc2])
      (by norm_num)
  have hk0 : k = 0 := Nat.le_zero.mp hki
  subst hk0
  rw [hres, hget0]
  rfl

/-! ## Claim C10 -/

/-- Claim C10: a state in which `get` counts a hit yet returns `None` is
reachable: store one entry, let the TTL of its answer record expire (the
sorted-set membership has no TTL), then look the same question up — the
similarity is 1, `total_hits` is incremented, and `None` comes back. -/
theorem claim_C10_hit_counted_without_result :
    (SemanticCache.get ⟨3600, 19 / 20, 10000, fun s => s⟩
      (expireAnswer
        (SemanticCache.set ⟨3600, 19 / 20, 10000, fun s => s⟩ emptyCache
          "q0" [1, 0] "A0" [] "hybrid" [] 0).2 "q0")
      "q0" [1, 0]).1 = none ∧
    (SemanticCache.get ⟨3600, 19 / 20, 10000, fun s => s⟩
      (expireAnswer
        (SemanticCache.set ⟨3600, 19 / 20, 10000, fun s => s⟩ emptyCache
          "q0" [1, 0] "A0" [] "hybrid" [] 0).2 "q0")
      "q0" [1, 0]).2.totalHits = 1 := by
  have hc1 : cosine_similarity [(1 : ℝ), 0] [(1 : ℝ), 0] = 1 :=
    cosine_similarity_self _ (by norm_num [dot])
  set stE := expireAnswer
    (SemanticCache.set ⟨3600, 19 / 20, 10000, fun s => s⟩ emptyCache
      "q0" [1, 0] "A0" [] "hybrid" [] 0).2 "q0" with hstE
  have hz : stE.zset = [("q0", 0)] := by
    simp [hstE, expireAnswer, SemanticCache.set, emptyCache, zadd, zinsert]
  have hemb : stE.embeddings "q0" = some (.valid [1, 0]) := by
    simp [hstE, expireAnswer, SemanticCache.set, emptyCache]
  have hans : stE.answers "q0" = none := by
    simp [hstE, expireAnswer]
  have hhits0 : stE.totalHits = 0 := by
    simp [hstE, expireAnswer, SemanticCache.set, emptyCache]
  have hscan : scanBest stE.embeddings [1, 0] ["q0"] 0 none =
      .done 1 (some "q0") := by
    simp only [scanBest, hemb]
    rw [hc1, if_pos (by norm_num : (1 : ℝ) > 0)]
  have hget : SemanticCache.get ⟨3600, 19 / 20, 10000, fun s => s⟩ stE
      "q0" [1, 0] =
      (none, { stE with totalHits := stE.totalHits + 1 }) := by
    simp only [SemanticCache.get, hz, List.map_cons, List.map_nil]
    rw [hscan]
    simp only [List.isEmpty_cons, Bool.false_eq_true, if_false]
    rw [if_neg (by norm_num : ¬ (1 : ℝ) < 19 / 20)]
    simp [idStr, hans]
  rw [hget]
  exact ⟨rfl, by simp [hhits0]⟩

/-! ## Claim C5 -/

/-- The ids of the pair list survive filtering on the first component. -/
theorem map_fst_filter_ne (l : List (String × ℕ)) (id0 : String) :
    (l.filter (fun p => p.1 ≠ id0)).map Prod.fst =
      (l.map Prod.fst).filter (fun id => id ≠ id0) := by
  induction l with
  | nil => rfl
  | cons p l ih =>
    by_cases h : p.1 = id0
    · simpa [List.filter_cons, h] using ih
    · simpa [List.filter_cons, h] using ih

/-- Counterexample to claim C5: entry "bad" has a corrupt embedding payload
and is enumerated before the perfectly matching live entry "good"; the
deserialization failure aborts the whole lookup — `get` returns `None` with
one error counted and no hit — instead of skipping "bad" and hitting
"good". -/
theorem claim_C5_counterexample :
    (SemanticCache.get ⟨3600, 19 / 20, 10000, fun s => s⟩
      { emptyCache with
        zset := [("bad", 0), ("good", 1)]
        embeddings := fun i =>
          if i = "bad" then some .corrupt
          else if i = "good" then some (.valid [1, 0]) else none
        queries := fun i => some ("q-" ++ i)
        answers := fun i => some ⟨"ans-" ++ i, [], "hybrid", [], 0⟩ }
      "q" [1, 0]).1 = none ∧
    (SemanticCache.get ⟨3600, 19 / 20, 10000, fun s => s⟩
      { emptyCache with
        zset := [("bad", 0), ("good", 1)]
        embeddings := fun i =>
          if i = "bad" then some .corrupt
          else if i = "good" then some (.valid [1, 0]) else none
        queries := fun i => some ("q-" ++ i)
        answers := fun i => some ⟨"ans-" ++ i, [], "hybrid", [], 0⟩ }
      "q" [1, 0]).2.totalErrors = 1 ∧
    (SemanticCache.get ⟨3600, 19 / 20, 10000, fun s => s⟩
      { emptyCache with
        zset := [("bad", 0), ("good", 1)]
        embeddings := fun i =>
          if i = "bad" then some .corrupt
          else if i = "good" then some (.valid [1, 0]) else none
        queries := fun i => some ("q-" ++ i)
        answers := fun i => some ⟨"ans-" ++ i, [], "hybrid", [], 0⟩ }
      "q" [1, 0]).2.totalHits = 0 := by
  have habort : scanBest
      ({ emptyCache with
        zset := [("bad", 0), ("good", 1)]
        embeddings := fun i =>
          if i = "bad" then some .corrupt
          else if i = "good" then some (.valid [1, 0]) else none
        queries := fun i => some ("q-" ++ i)
        answers := fun i =>
          some ⟨"ans-" ++ i, [], "hybrid", [], 0⟩ } : CacheState).embeddings
      [1, 0] ["bad", "good"] 0 none = .aborted := by
    simp [scanBest]
  have hget : SemanticCache.get ⟨3600, 19 / 20, 10000, fun s => s⟩
      { emptyCache with
        zset := [("bad", 0), ("good", 1)]
        embeddings := fun i =>
          if i = "bad" then some .corrupt
          else if i = "good" then some (.valid [1, 0]) else none
        queries := fun i => some ("q-" ++ i)
        answers := fun i => some ⟨"ans-" ++ i, [], "hybrid", [], 0⟩ }
      "q" [1, 0] =
      (none,
       { emptyCache with
         zset := [("bad", 0), ("good", 1)]
         embeddings := fun i =>
           if i = "bad" then some .corrupt
           else if i = "good" then some (.valid [1, 0]) else none
         queries := fun i => some ("q-" ++ i)
         answers := fun i => some ⟨"ans-" ++ i, [], "hybrid", [], 0⟩
         totalErrors := 1 }) := by
    simp only [SemanticCache.get, List.map_cons, List.map_nil]
    rw [habort]
    simp [emptyCache]
  rw [hget]
  exact ⟨rfl, rfl, rfl⟩

/-- Claim C5 as amended: during `get`'s scan an entry whose embedding record
is *missing* is skipped — removing its id from the ordered set changes
neither the result nor any counter — without touching `total_errors`; but an
entry whose stored payload is *corrupt* (deserialization raises) aborts the
whole lookup: `get` returns `None` with `total_errors` incremented once and
neither a hit nor a miss counted. -/
theorem claim_C5_skip_missing_abort_corrupt (cfg : CacheConfig)
    (st : CacheState) (query : String) (e : List ℝ) (id0 : String) :
    ((∃ id ∈ st.zset.map Prod.fst, st.embeddings id = some .corrupt) →
      SemanticCache.get cfg st query e =
        (none, { st with totalErrors := st.totalErrors + 1 }))
    ∧ (st.embeddings id0 = none → 0 < cfg.similarity_threshold →
      (SemanticCache.get cfg st query e).1 =
        (SemanticCache.get cfg (dropDead st id0) query e).1 ∧
      countersOf (SemanticCache.get cfg st query e).2 =
        countersOf (SemanticCache.get cfg (dropDead st id0) query e).2) := by
  constructor
  · rintro ⟨id, hid, hcor⟩
    have hne : ¬ (st.zset.map Prod.fst).isEmpty := by
      intro habs
      rw [List.isEmpty_iff] at habs
      rw [habs] at hid
      exact absurd hid (List.not_mem_nil id)
    have habort : scanBest st.embeddings e (st.zset.map Prod.fst) 0 none =
        .aborted :=
      (scanBest_aborted_iff st.embeddings e _ 0 none).mpr ⟨id, hid, hcor⟩
    simp only [SemanticCache.get, hne, Bool.false_eq_true, if_false,
      habort]
  · intro hdead hth
    have hids : (dropDead st id0).zset.map Prod.fst =
        (st.zset.map Prod.fst).filter (fun id => id ≠ id0) := by
      simp only [dropDead]
      exact map_fst_filter_ne st.zset id0
    have hscan_eq : scanBest (dropDead st id0).embeddings e
        ((dropDead st id0).zset.map Prod.fst) 0 none =
        scanBest st.embeddings e (st.zset.map Prod.fst) 0 none := by
      rw [hids]
      exact scanBest_skip_dead st.embeddings e id0 hdead _ 0 none
    by_cases hemp2 : ((dropDead st id0).zset.map Prod.fst).isEmpty
    · by_cases hemp1 : (st.zset.map Prod.fst).isEmpty
      · refine ⟨?_, ?_⟩
        · simp only [SemanticCache.get, hemp1, hemp2, if_true]
        · simp only [SemanticCache.get, hemp1, hemp2, if_true]
          rfl
      · have hdone : scanBest st.embeddings e (st.zset.map Prod.fst) 0
            none = .done 0 none := by
          rw [← hscan_eq, hids]
          rw [List.isEmpty_iff] at hemp2
          rw [hids] at hemp2
          rw [hemp2]
          rfl
        simp only [SemanticCache.get, hemp1, hemp2, Bool.false_eq_true,
          if_false, if_true, hdone]
        simp only [hth, if_true]
        exact ⟨trivial, rfl⟩
    · have hemp1 : ¬ (st.zset.map Prod.fst).isEmpty := by
        intro habs
        rw [List.isEmpty_iff] at habs
        rw [List.isEmpty_iff, hids, habs] at hemp2
        exact hemp2 rfl
      simp only [SemanticCache.get, hemp1, hemp2, Bool.false_eq_true,
        if_false, hscan_eq]
      cases hs : scanBest st.embeddings e (st.zset.map Prod.fst) 0 none with
      | aborted => exact ⟨rfl, rfl⟩
      | done best bid =>
        dsimp only
        by_cases hlt : best < cfg.similarity_threshold
        · simp only [hlt, if_true]
          exact ⟨trivial, rfl⟩
        · simp only [hlt, if_false]
          have hansd : (dropDead st id0).answers = st.answers := rfl
          have hqd : (dropDead st id0).queries = st.queries := rfl
          rw [hansd, hqd]
          cases hans2 : st.answers (idStr bid) with
          | none => exact ⟨rfl, rfl⟩
          | some ad =>
            cases hq2 : st.queries (idStr bid) with
            | none => exact ⟨rfl, rfl⟩
            | some oq => exact ⟨rfl, rfl⟩

/-- Concrete run of the amended claim C5: with a corrupt "bad" entry the
lookup returns `None` and counts one error, and a dead id "dead" (membership
present, embedding record expired) is transparent to the result of `get`. -/
theorem claim_C5_skip_missing_abort_corrupt_witness :
    (SemanticCache.get ⟨3600, 19 / 20, 10000, fun s => s⟩
      { emptyCache with
        zset := [("bad", 0)]
        embeddings := fun i =>
          if i = "bad" then some .corrupt else none }
      "q" [1, 0] =
      (none,
       { emptyCache with
         zset := [("bad", 0)]
         embeddings := fun i =>
           if i = "bad" then some .corrupt else none
         totalErrors := 1 }))
    ∧ ((SemanticCache.get ⟨3600, 19 / 20, 10000, fun s => s⟩
        { emptyCache with
          zset := [("dead", 0)]
          embeddings := fun i => none }
        "q" [1, 0]).1 =
      (SemanticCache.get ⟨3600, 19 / 20, 10000, fun s => s⟩
        (dropDead
          { emptyCache with
            zset := [("dead", 0)]
            embeddings := fun i => none } "dead")
        "q" [1, 0]).1) := by
  constructor
  · have h := (claim_C5_skip_missing_abort_corrupt
      ⟨3600, 19 / 20, 10000, fun s => s⟩
      { emptyCache with
        zset := [("bad", 0)]
        embeddings := fun i =>
          if i = "bad" then some .corrupt else none }
      "q" [1, 0] "x").1
    have h2 := h ⟨"bad", by simp, by simp⟩
    rw [h2]
    rfl
  · have h := (claim_C5_skip_missing_abort_corrupt
      ⟨3600, 19 / 20, 10000, fun s => s⟩
      { emptyCache with
        zset := [("dead", 0)]
        embeddings := fun i => none }
      "q" [1, 0] "dead").2
    exact (h rfl (by norm_num)).1

/-! ## Claim C4 -/

/-- Under a fault-free store the scan with fault bookkeeping agrees with the
plain scan, ticking once per enumerated id. -/
theorem scanBestF_noFaults (emb : String → Option EmbPayload) (q : List ℝ)
    (ids : List String) (t : ℕ) (b : ℝ) (i : Option String)
    (h : ∀ id ∈ ids, emb id ≠ some .corrupt) :
    scanBestF (fun _ => false) emb q ids t b i =
      .ok (t + ids.length,
        (foldScan (liveEntries emb q ids) (b, i)).1,
        (foldScan (liveEntries emb q ids) (b, i)).2) := by
  induction ids generalizing t b i with
  | nil => simp [scanBestF, liveEntries, foldScan]
  | cons id rest ih =>
    have hid := h id (by simp)
    have hrest : ∀ j ∈ rest, emb j ≠ some .corrupt :=
      fun j hj => h j (by simp [hj])
    have harith : t + 1 + rest.length = t + (id :: rest).length := by
      simp only [List.length_cons]
      omega
    simp only [scanBestF, Bool.false_eq_true, if_false]
    cases hemb : emb id with
    | none =>
      dsimp only
      rw [ih (t + 1) b i hrest, harith]
      simp [liveEntries, hemb]
    | some payload =>
      cases payload with
      | corrupt => exact absurd hemb hid
      | valid v =>
        dsimp only
        by_cases hgt : cosine_similarity q v > b
        · rw [if_pos hgt,
            ih (t + 1) (cosine_similarity q v) (some id) hrest, harith]
          simp [liveEntries, hemb, foldScan, hgt]
        · rw [if_neg hgt, ih (t + 1) b i hrest, harith]
          simp [liveEntries, hemb, foldScan, hgt]

/-- Under a fault-free store a corrupt payload makes the bookkept scan raise
just as the plain one aborts. -/
theorem scanBestF_noFaults_corrupt (emb : String → Option EmbPayload)
    (q : List ℝ) (ids : List String) (t : ℕ) (b : ℝ) (i : Option String)
    (h : ∃ id ∈ ids, emb id = some .corrupt) :
    ∃ u, scanBestF (fun _ => false) emb q ids t b i = .error u := by
  induction ids generalizing t b i with
  | nil => simp at h
  | cons id rest ih =>
    simp only [scanBestF, Bool.false_eq_true, if_false]
    cases hemb : emb id with
    | none =>
      dsimp only
      rcases h with ⟨id2, hid2, hcor⟩
      rcases List.mem_cons.mp hid2 with rfl | hid2r
      · exact absurd hemb (by simp [hcor])
      · exact ih (t + 1) b i ⟨id2, hid2r, hcor⟩
    | some payload =>
      cases payload with
      | corrupt => exact ⟨t + 1, rfl⟩
      | valid v =>
        dsimp only
        have hrest : ∃ id2 ∈ rest, emb id2 = some .corrupt := by
          rcases h with ⟨id2, hid2, hcor⟩
          rcases List.mem_cons.mp hid2 with rfl | hid2r
          · rw [hemb] at hcor
            exact absurd hcor (by simp)
          · exact ⟨id2, hid2r, hcor⟩
        by_cases hgt : cosine_similarity q v > b
        · rw [if_pos hgt]
          exact ih (t + 1) (cosine_similarity q v) (some id) hrest
        · rw [if_neg hgt]
          exact ih (t + 1) b i hrest

/-- Coherence of the fault model: with no call ever raising, `getF` returns
exactly what the plain `get` returns. -/
theorem getF_noFaults (cfg : CacheConfig) (st : CacheState) (query : String)
    (e : List ℝ) :
    SemanticCache.getF (fun _ => false) cfg st e =
      .ok (SemanticCache.get cfg st query e) := by
  by_cases hemp : (st.zset.map Prod.fst).isEmpty
  · simp [SemanticCache.getF, SemanticCache.getCoreF, SemanticCache.get,
      hemp]
  · by_cases hcor : ∃ id ∈ st.zset.map Prod.fst,
        st.embeddings id = some .corrupt
    · have habort : scanBest st.embeddings e (st.zset.map Prod.fst) 0
          none = .aborted :=
        (scanBest_aborted_iff st.embeddings e _ 0 none).mpr hcor
      rcases scanBestF_noFaults_corrupt st.embeddings e
        (st.zset.map Prod.fst) 1 0 none hcor with ⟨u, hu⟩
      simp [SemanticCache.getF, SemanticCache.getCoreF, SemanticCache.get,
        hemp, hu, habort]
    · have hnc : ∀ id ∈ st.zset.map Prod.fst,
          st.embeddings id ≠ some .corrupt := by
        intro id hid hc
        exact hcor ⟨id, hid, hc⟩
      have hscan := scanBest_eq_foldScan st.embeddings e
        (st.zset.map Prod.fst) 0 none hnc
      have hscanF := scanBestF_noFaults st.embeddings e
        (st.zset.map Prod.fst) 1 0 none hnc
      simp only [SemanticCache.getF, SemanticCache.getCoreF,
        SemanticCache.get, hemp, Bool.false_eq_true, if_false, hscan,
        hscanF]
      by_cases hlt : (foldScan (liveEntries st.embeddings e
          (st.zset.map Prod.fst)) (0, none)).1 < cfg.similarity_threshold
      · simp [hlt]
      · simp only [hlt, if_false]
        cases hans : st.answers (idStr (foldScan (liveEntries
            st.embeddings e (st.zset.map Prod.fst)) (0, none)).2) with
        | none => simp
        | some ad =>
          cases hq : st.queries (idStr (foldScan (liveEntries
              st.embeddings e (st.zset.map Prod.fst)) (0, none)).2) with
          | none => simp
          | some oq => simp

/-- Claim C4 (code bug in `get`): with the backing store unreachable every
Redis call raises; the first call of `get` raises into the `except` handler,
whose own `HINCRBY total_errors` is again a store call and raises — so `get`
propagates the exception to its caller instead of returning a miss. -/
theorem claim_C4_get_raises_when_unreachable (cfg : CacheConfig)
    (st : CacheState) (e : List ℝ) :
    SemanticCache.getF (fun _ => true) cfg st e = .error () := by
  simp [SemanticCache.getF, SemanticCache.getCoreF]

/-! ## Claim C6 -/

/-- Counterexample to claim C6: the context lookup raises on the first hit;
`hybrid_search` fails as a whole instead of dropping that hit and returning
the second hit's enrichment. -/
theorem claim_C6_counterexample :
    hybrid_search [⟨"c1", "t1", 9 / 10⟩, ⟨"c2", "t2", 8 / 10⟩]
      (fun id => if id = "c2" then
        .ok (some ⟨"cur2", none, none, some "D"⟩) else .error ()) =
      .error () ∧
    hybrid_search [⟨"c1", "t1", 9 / 10⟩, ⟨"c2", "t2", 8 / 10⟩]
      (fun id => if id = "c2" then
        .ok (some ⟨"cur2", none, none, some "D"⟩) else .error ()) ≠
      .ok [⟨buildCombined ⟨"cur2", none, none, some "D"⟩, some "D",
        8 / 10⟩] := by
  constructor
  · simp [hybrid_search]
  · simp [hybrid_search]

/-- Claim C6 as amended: a raising context lookup propagates and fails the
whole call (see the counterexample); when no lookup raises, a hit whose
lookup returns no row is dropped and exactly the hits with a row come back
enriched, in their original order. -/
theorem claim_C6_drop_only_rowless (hits : List VectorHit)
    (lookupCtx : String → Except Unit (Option CtxRow))
    (h : ∀ x ∈ hits, lookupCtx x.chunk_id ≠ .error ()) :
    hybrid_search hits lookupCtx = .ok (hits.filterMap (fun x =>
      match lookupCtx x.chunk_id with
      | .ok (some ctx) => some ⟨buildCombined ctx, ctx.doc_title, x.score⟩
      | _ => none)) := by
  induction hits with
  | nil => rfl
  | cons r rest ih =>
    have hr := h r (by simp)
    have hrest : ∀ x ∈ rest, lookupCtx x.chunk_id ≠ .error () :=
      fun x hx => h x (by simp [hx])
    simp only [hybrid_search, List.filterMap_cons]
    cases hl : lookupCtx r.chunk_id with
    | error u =>
      cases u
      exact absurd hl hr
    | ok row =>
      cases row with
      | none => simpa using ih hrest
      | some ctx => simp [ih hrest]

/-- Concrete run of the amended claim C6: the first hit's lookup returns no
row, the second returns one; only the second comes back, enriched. -/
theorem claim_C6_drop_only_rowless_witness :
    hybrid_search [⟨"c1", "t1", 9 / 10⟩, ⟨"c2", "t2", 8 / 10⟩]
      (fun id => if id = "c2" then
        .ok (some ⟨"cur2", none, none, some "D"⟩) else .ok none) =
      .ok [⟨"[Основной]: cur2", some "D", 8 / 10⟩] := by
  have h := claim_C6_drop_only_rowless
    [⟨"c1", "t1", 9 / 10⟩, ⟨"c2", "t2", 8 / 10⟩]
    (fun id => if id = "c2" then
      .ok (some ⟨"cur2", none, none, some "D"⟩) else .ok none)
    (by
      intro x hx
      rcases List.mem_cons.mp hx with rfl | hx2
      · simp
      · rcases List.mem_cons.mp hx2 with rfl | hx3
        · simp
        · exact absurd hx3 (List.not_mem_nil x))
  rw [h]
  rfl

/-! ## Claim C9 -/

/-- Claim C9: a retrieved chunk whose context row has no previous neighbour
is enriched without error; the produced text holds only the main block,
followed by the next block exactly when a (truthy) next neighbour is
present — the missing previous neighbour just omits its block. -/
theorem claim_C9_no_prev_block (h : VectorHit)
    (lookupCtx : String → Except Unit (Option CtxRow)) (cur : String)
    (nxt : Option String) (title : Option String)
    (hl : lookupCtx h.chunk_id = .ok (some ⟨cur, none, nxt, title⟩)) :
    hybrid_search [h] lookupCtx =
      .ok [⟨"[Основной]: " ++ cur ++
        (if truthy nxt then "\n\n[Следующий]: " ++ optStr nxt else ""),
        title, h.score⟩] := by
  simp only [hybrid_search, hl]
  rfl

/-- Concrete run of claim C9: the first chunk of a document (no previous
neighbour, with a next one) yields main plus next blocks only. -/
theorem claim_C9_no_prev_block_witness :
    hybrid_search [⟨"c1", "t1", 1 / 2⟩]
      (fun _ => .ok (some ⟨"cur", none, some "nxt", some "D"⟩)) =
      .ok [⟨"[Основной]: cur\n\n[Следующий]: nxt", some "D", 1 / 2⟩] := by
  have h := claim_C9_no_prev_block ⟨"c1", "t1", 1 / 2⟩
    (fun _ => .ok (some ⟨"cur", none, some "nxt", some "D"⟩))
    "cur" (some "nxt") (some "D") rfl
  rw [h]
  rfl

/-! ## Claim C7 -/

/-- Claim C7: per request the semantic cache is consulted before anything
else; the pipeline (retrieval plus generation state machine) runs exactly on
a cache miss; a successful pipeline run is followed by exactly one cache
put, after which the fresh result is returned; a raising pipeline leads to
no cache put. -/
theorem claim_C7_cache_first_put_on_success (cfg : CacheConfig)
    (st : CacheState) (question : String) (qe : List ℝ)
    (pipeline : Except Unit RagResult) (now : ℕ) :
    ((query_rag cfg st question qe pipeline now).2.1.head? =
      some .cacheGet)
    ∧ (QEvent.pipelineRun ∈ (query_rag cfg st question qe pipeline now).2.1
        ↔ (SemanticCache.get cfg st question qe).1 = none)
    ∧ (∀ r, pipeline = .ok r →
        (SemanticCache.get cfg st question qe).1 = none →
        (query_rag cfg st question qe pipeline now).2.1 =
          [.cacheGet, .pipelineRun, .cachePut] ∧
        (query_rag cfg st question qe pipeline now).1 =
          .ok ⟨question, r.answer, r.steps, false⟩)
    ∧ (pipeline = .error () →
        QEvent.cachePut ∉
          (query_rag cfg st question qe pipeline now).2.1) := by
  cases hg : (SemanticCache.get cfg st question qe).1 with
  | some hit => simp [query_rag, hg]
  | none =>
    cases hp : pipeline with
    | error u =>
      cases u
      simp [query_rag, hg]
    | ok r => simp [query_rag, hg]

/-- Concrete run of claim C7: on a miss (empty cache) with a successful
pipeline the event trace is exactly consult, run, put. -/
theorem claim_C7_cache_first_put_on_success_witness :
    (query_rag ⟨3600, 19 / 20, 10000, fun s => s⟩ emptyCache "Q" [1, 0]
      (.ok ⟨"Ans", [], "hybrid", ["s1"]⟩) 0).2.1 =
      [.cacheGet, .pipelineRun, .cachePut] := by
  have hmiss : (SemanticCache.get ⟨3600, 19 / 20, 10000, fun s => s⟩
      emptyCache "Q" [1, 0]).1 = none := by
    simp [SemanticCache.get, emptyCache]
  exact ((claim_C7_cache_first_put_on_success
    ⟨3600, 19 / 20, 10000, fun s => s⟩ emptyCache "Q" [1, 0]
    (.ok ⟨"Ans", [], "hybrid", ["s1"]⟩) 0).2.2.1
    ⟨"Ans", [], "hybrid", ["s1"]⟩ rfl hmiss).1

/-! ## Claim C8 -/

/-- Every live entry decomposes into an enumerated id with a valid stored
vector and its similarity. -/
theorem liveEntries_mem (emb : String → Option EmbPayload) (q : List ℝ)
    (ids : List String) (r : String × ℝ)
    (h : r ∈ liveEntries emb q ids) :
    r.1 ∈ ids ∧ ∃ v, emb r.1 = some (.valid v) ∧
      r.2 = cosine_similarity q v := by
  rcases List.mem_filterMap.mp h with ⟨id, hid, hf⟩
  cases hemb : emb id with
  | none => rw [hemb] at hf; exact absurd hf (by simp)
  | some payload =>
    cases payload with
    | corrupt => rw [hemb] at hf; exact absurd hf (by simp)
    | valid v =>
      rw [hemb] at hf
      simp only [Option.some.injEq] at hf
      rw [← hf]
      exact ⟨hid, v, hemb, rfl⟩

theorem liveEntries_append (emb : String → Option EmbPayload) (q : List ℝ)
    (ids1 ids2 : List String) :
    liveEntries emb q (ids1 ++ ids2) =
      liveEntries emb q ids1 ++ liveEntries emb q ids2 := by
  simp [liveEntries, List.filterMap_append]

/-- Claim C8: round trip.  For any question whose embedding has a non-zero
self-dot-product, a successful `put` followed immediately by `get` with the
same embedding is a hit that returns the stored answer with attached
similarity exactly 1 (cosine of a non-zero vector with itself), under these
side conditions: the threshold lies in `(0, 1]`, the prior state holds no
corrupt payload, every other stored vector has similarity strictly below 1
with the query, and all stored scores predate `now`. -/
theorem claim_C8_put_then_get_roundtrip (cfg : CacheConfig)
    (st : CacheState) (q : String) (e : List ℝ) (answer : String)
    (sources : List SourceInfo) (stype : String) (steps : List String)
    (now : ℕ)
    (hth0 : 0 < cfg.similarity_threshold)
    (hth1 : cfg.similarity_threshold ≤ 1)
    (he : dot e e ≠ 0)
    (hnc : ∀ id, st.embeddings id ≠ some .corrupt)
    (hsim : ∀ id v, id ≠ cfg.qid q →
      st.embeddings id = some (.valid v) → cosine_similarity e v < 1)
    (htime : ∀ p ∈ st.zset, p.2 < now) :
    (SemanticCache.set cfg st q e answer sources stype steps now).1 =
      true ∧
    (SemanticCache.get cfg
      (SemanticCache.set cfg st q e answer sources stype steps now).2
      q e).1 =
      some ⟨answer, sources, stype, steps, now, true, 1, q⟩ := by
  refine ⟨rfl, ?_⟩
  set st1 := if cfg.max_cache_size ≤ st.zset.length
    then { st with zset := st.zset.drop 1 } else st with hst1
  have hsub1 : ∀ p ∈ st1.zset, p ∈ st.zset := by
    intro p hp
    rw [hst1] at hp
    by_cases hc : cfg.max_cache_size ≤ st.zset.length
    · rw [if_pos hc] at hp
      exact List.drop_subset 1 st.zset hp
    · rw [if_neg hc] at hp
      exact hp
  have hzset : (SemanticCache.set cfg st q e answer sources stype steps
      now).2.zset =
      st1.zset.filter (fun r => r.1 ≠ cfg.qid q) ++ [(cfg.qid q, now)] := by
    simp only [SemanticCache.set, ← hst1, zadd]
    refine zinsert_append _ _ ?_
    intro r hr
    exact zltBool_false_of_lt _ r
      (htime r (hsub1 r (List.mem_of_mem_filter hr)))
  have hembp : (SemanticCache.set cfg st q e answer sources stype steps
      now).2.embeddings = fun i =>
      if i = cfg.qid q then some (.valid e) else st1.embeddings i := rfl
  have hself : cosine_similarity e e = 1 := cosine_similarity_self e he
  set stS := (SemanticCache.set cfg st q e answer sources stype steps
    now).2 with hstS
  have hids : stS.zset.map Prod.fst =
      (st1.zset.filter (fun r => r.1 ≠ cfg.qid q)).map Prod.fst ++
        [cfg.qid q] := by
    rw [hzset]
    simp
  have hne : ¬ (stS.zset.map Prod.fst).isEmpty := by
    rw [hids]
    simp
  have hnc2 : ∀ id ∈ stS.zset.map Prod.fst,
      stS.embeddings id ≠ some .corrupt := by
    intro id hid
    rw [hembp]
    by_cases hq : id = cfg.qid q
    · simp [hq]
    · simp only [hq, if_false]
      rw [hst1]
      by_cases hc : cfg.max_cache_size ≤ st.zset.length
      · simp only [if_pos hc]
        exact hnc id
      · simp only [if_neg hc]
        exact hnc id
  have hscan := scanBest_eq_foldScan stS.embeddings e
    (stS.zset.map Prod.fst) 0 none hnc2
  have hlast : liveEntries stS.embeddings e [cfg.qid q] =
      [(cfg.qid q, cosine_similarity e e)] := by
    simp [liveEntries, hembp]
  have hL : liveEntries stS.embeddings e (stS.zset.map Prod.fst) =
      liveEntries stS.embeddings e
        ((st1.zset.filter (fun r => r.1 ≠ cfg.qid q)).map Prod.fst) ++
        [(cfg.qid q, cosine_similarity e e)] := by
    rw [hids, liveEntries_append, hlast]
  have hlt1 : ∀ p ∈ liveEntries stS.embeddings e
      ((st1.zset.filter (fun r => r.1 ≠ cfg.qid q)).map Prod.fst),
      p.2 < 1 := by
    intro p hp
    rcases liveEntries_mem _ _ _ p hp with ⟨hpin, v, hpe, hps⟩
    have hpne : p.1 ≠ cfg.qid q := by
      rcases List.mem_map.mp hpin with ⟨r, hrmem, hre⟩
      have := List.of_mem_filter hrmem
      rw [← hre]
      simpa using this
    rw [hembp] at hpe
    simp only [hpne, if_false] at hpe
    have hpe2 : st.embeddings p.1 = some (.valid v) := by
      rw [hst1] at hpe
      by_cases hc : cfg.max_cache_size ≤ st.zset.length
      · simpa [if_pos hc] using hpe
      · simpa [if_neg hc] using hpe
    rw [hps]
    exact hsim p.1 v hpne hpe2
  have hfold : foldScan (liveEntries stS.embeddings e
      (stS.zset.map Prod.fst)) (0, none) = (1, some (cfg.qid q)) := by
    rw [hL]
    have := foldScan_first_max
      (liveEntries stS.embeddings e
        ((st1.zset.filter (fun r => r.1 ≠ cfg.qid q)).map Prod.fst))
      [] (cfg.qid q, cosine_similarity e e) 0 none
      (by rw [hself]; norm_num)
      (by intro r hr; rw [hself]; exact hlt1 r hr)
      (by intro r hr; exact absurd hr (List.not_mem_nil r))
    rw [this, hself]
  rw [hfold] at hscan
  have hnl : ¬ (1 : ℝ) < cfg.similarity_threshold := not_lt.mpr hth1
  have hansS : stS.answers (cfg.qid q) =
      some ⟨answer, sources, stype, steps, now⟩ := by
    simp [hstS, SemanticCache.set]
  have hqS : stS.queries (cfg.qid q) = some q := by
    simp [hstS, SemanticCache.set]
  simp only [SemanticCache.get, hne, Bool.false_eq_true, if_false, hscan,
    hnl, idStr, hansS, hqS]

/-- Concrete round trip for claim C8: put "What is ML?" with embedding
`[3,4]` into an empty cache, get it back with similarity exactly 1. -/
theorem claim_C8_put_then_get_roundtrip_witness :
    (SemanticCache.set ⟨3600, 19 / 20, 10000, fun s => s⟩ emptyCache
      "What is ML?" [3, 4] "A1" [] "hybrid" [] 5).1 = true ∧
    (SemanticCache.get ⟨3600, 19 / 20, 10000, fun s => s⟩
      (SemanticCache.set ⟨3600, 19 / 20, 10000, fun s => s⟩ emptyCache
        "What is ML?" [3, 4] "A1" [] "hybrid" [] 5).2
      "What is ML?" [3, 4]).1 =
      some ⟨"A1", [], "hybrid", [], 5, true, 1, "What is ML?"⟩ :=
  claim_C8_put_then_get_roundtrip ⟨3600, 19 / 20, 10000, fun s => s⟩
    emptyCache "What is ML?" [3, 4] "A1" [] "hybrid" [] 5
    (by norm_num) (by norm_num) (by norm_num [dot])
    (by intro id; simp [emptyCache])
    (by intro id v _ habs; simp [emptyCache] at habs)
    (by intro p hp; simp [emptyCache] at hp)

/-! ## Claim C3 -/

theorem set_zset_eq (cfg : CacheConfig) (st : CacheState) (q : String)
    (e : List ℝ) (a : String) (so : List SourceInfo) (ty : String)
    (ps : List String) (now : ℕ) :
    (SemanticCache.set cfg st q e a so ty ps now).2.zset =
      if cfg.max_cache_size ≤ st.zset.length
      then zadd (st.zset.drop 1) (cfg.qid q) now
      else zadd st.zset (cfg.qid q) now := by
  by_cases hc : cfg.max_cache_size ≤ st.zset.length <;>
    simp [SemanticCache.set, hc]

theorem set_embeddings_eq (cfg : CacheConfig) (st : CacheState) (q : String)
    (e : List ℝ) (a : String) (so : List SourceInfo) (ty : String)
    (ps : List String) (now : ℕ) :
    (SemanticCache.set cfg st q e a so ty ps now).2.embeddings =
      fun i => if i = cfg.qid q then some (.valid e)
               else st.embeddings i := by
  funext i
  by_cases hc : cfg.max_cache_size ≤ st.zset.length <;>
    simp [SemanticCache.set, hc]

theorem set_queries_eq (cfg : CacheConfig) (st : CacheState) (q : String)
    (e : List ℝ) (a : String) (so : List SourceInfo) (ty : String)
    (ps : List String) (now : ℕ) :
    (SemanticCache.set cfg st q e a so ty ps now).2.queries =
      fun i => if i = cfg.qid q then some q else st.queries i := by
  funext i
  by_cases hc : cfg.max_cache_size ≤ st.zset.length <;>
    simp [SemanticCache.set, hc]

theorem set_answers_eq (cfg : CacheConfig) (st : CacheState) (q : String)
    (e : List ℝ) (a : String) (so : List SourceInfo) (ty : String)
    (ps : List String) (now : ℕ) :
    (SemanticCache.set cfg st q e a so ty ps now).2.answers =
      fun i => if i = cfg.qid q then some ⟨a, so, ty, ps, now⟩
               else st.answers i := by
  funext i
  by_cases hc : cfg.max_cache_size ≤ st.zset.length <;>
    simp [SemanticCache.set, hc]

/-- While at most `max_cache_size` entries have been inserted, `putSeq`
has evicted nothing: the sorted set lists the entries in insertion order
and every inserted record is present. -/
theorem putSeq_invariant (cfg : CacheConfig) (qs : ℕ → String)
    (es : ℕ → List ℝ) (ans : ℕ → String)
    (hinj : ∀ j k, j ≤ cfg.max_cache_size → k ≤ cfg.max_cache_size →
      cfg.qid (qs j) = cfg.qid (qs k) → j = k)
    (k : ℕ) (hk : k ≤ cfg.max_cache_size) :
    (putSeq cfg qs es ans k).zset =
      (List.range k).map (fun j => (cfg.qid (qs j), j)) ∧
    ∀ j, j < k →
      (putSeq cfg qs es ans k).embeddings (cfg.qid (qs j)) =
        some (.valid (es j)) ∧
      (putSeq cfg qs es ans k).queries (cfg.qid (qs j)) = some (qs j) ∧
      (putSeq cfg qs es ans k).answers (cfg.qid (qs j)) =
        some ⟨ans j, [], "hybrid", [], j⟩ := by
  induction k with
  | zero => exact ⟨rfl, fun j hj => absurd hj (Nat.not_lt_zero j)⟩
  | succ k ih =>
    have hkN : k ≤ cfg.max_cache_size := Nat.le_of_succ_le hk
    obtain ⟨hz, hmaps⟩ := ih hkN
    have hlen : (putSeq cfg qs es ans k).zset.length = k := by
      rw [hz]
      simp
    have hnoev : ¬ cfg.max_cache_size ≤
        (putSeq cfg qs es ans k).zset.length := by
      rw [hlen]
      omega
    have hfresh : ∀ r ∈ (putSeq cfg qs es ans k).zset,
        r.1 ≠ cfg.qid (qs k) := by
      intro r hr
      rw [hz] at hr
      rcases List.mem_map.mp hr with ⟨j, hjm, rfl⟩
      intro heq
      have hj := List.mem_range.mp hjm
      have := hinj j k (le_trans (Nat.le_of_lt hj) hkN) hkN heq
      omega
    have hscores : ∀ r ∈ (putSeq cfg qs es ans k).zset, r.2 < k := by
      intro r hr
      rw [hz] at hr
      rcases List.mem_map.mp hr with ⟨j, hjm, rfl⟩
      exact List.mem_range.mp hjm
    have hzadd := zadd_append (putSeq cfg qs es ans k).zset
      (cfg.qid (qs k)) k hscores hfresh
    constructor
    · show (SemanticCache.set cfg (putSeq cfg qs es ans k) (qs k) (es k)
        (ans k) [] "hybrid" [] k).2.zset = _
      rw [set_zset_eq, if_neg hnoev, hzadd, hz, List.range_succ,
        List.map_append]
      rfl
    · intro j hj
      rcases Nat.lt_succ_iff_lt_or_eq.mp hj with hj2 | rfl
      · have hne2 : cfg.qid (qs j) ≠ cfg.qid (qs k) := by
          intro heq
          have := hinj j k (le_trans (Nat.le_of_lt hj2) hkN) hkN heq
          omega
        obtain ⟨h1, h2, h3⟩ := hmaps j hj2
        refine ⟨?_, ?_, ?_⟩
        · show (SemanticCache.set cfg (putSeq cfg qs es ans k) (qs k)
            (es k) (ans k) [] "hybrid" [] k).2.embeddings
            (cfg.qid (qs j)) = _
          rw [set_embeddings_eq]
          simp only [hne2, if_false]
          exact h1
        · show (SemanticCache.set cfg (putSeq cfg qs es ans k) (qs k)
            (es k) (ans k) [] "hybrid" [] k).2.queries
            (cfg.qid (qs j)) = _
          rw [set_queries_eq]
          simp only [hne2, if_false]
          exact h2
        · show (SemanticCache.set cfg (putSeq cfg qs es ans k) (qs k)
            (es k) (ans k) [] "hybrid" [] k).2.answers
            (cfg.qid (qs j)) = _
          rw [set_answers_eq]
          simp only [hne2, if_false]
          exact h3
      · refine ⟨?_, ?_, ?_⟩
        · show (SemanticCache.set cfg (putSeq cfg qs es ans j) (qs j)
            (es j) (ans j) [] "hybrid" [] j).2.embeddings
            (cfg.qid (qs j)) = _
          rw [set_embeddings_eq]
          simp
        · show (SemanticCache.set cfg (putSeq cfg qs es ans j) (qs j)
            (es j) (ans j) [] "hybrid" [] j).2.queries
            (cfg.qid (qs j)) = _
          rw [set_queries_eq]
          simp
        · show (SemanticCache.set cfg (putSeq cfg qs es ans j) (qs j)
            (es j) (ans j) [] "hybrid" [] j).2.answers
            (cfg.qid (qs j)) = _
          rw [set_answers_eq]
          simp

/-- Claim C3: capacity and strict FIFO eviction.  Insert
`max_cache_size + 1` distinct questions sequentially into a fresh cache
(distinct ids, embeddings of non-zero self-dot-product, pairwise similarity
below the threshold, threshold in `(0, 1]`, capacity at least 1).  The
final entry count is exactly `max_cache_size`; the earliest-inserted
question now misses (it was the single evicted entry, the one with the
smallest insertion timestamp); every later question still hits, returning
its own answer with similarity 1. -/
theorem claim_C3_capacity_fifo_eviction (cfg : CacheConfig)
    (qs : ℕ → String) (es : ℕ → List ℝ) (ans : ℕ → String)
    (hN : 1 ≤ cfg.max_cache_size)
    (hth0 : 0 < cfg.similarity_threshold)
    (hth1 : cfg.similarity_threshold ≤ 1)
    (hinj : ∀ j k, j ≤ cfg.max_cache_size → k ≤ cfg.max_cache_size →
      cfg.qid (qs j) = cfg.qid (qs k) → j = k)
    (hdot : ∀ k, k ≤ cfg.max_cache_size → dot (es k) (es k) ≠ 0)
    (hsim : ∀ j k, j ≤ cfg.max_cache_size → k ≤ cfg.max_cache_size →
      j ≠ k →
      cosine_similarity (es k) (es j) < cfg.similarity_threshold) :
    (putSeq cfg qs es ans (cfg.max_cache_size + 1)).zset.length =
      cfg.max_cache_size ∧
    ((SemanticCache.get cfg
        (putSeq cfg qs es ans (cfg.max_cache_size + 1)) (qs 0)
        (es 0)).1 = none ∧
      (SemanticCache.get cfg
        (putSeq cfg qs es ans (cfg.max_cache_size + 1)) (qs 0)
        (es 0)).2.totalMisses =
        (putSeq cfg qs es ans (cfg.max_cache_size + 1)).totalMisses +
          1) ∧
    (∀ k, 1 ≤ k → k ≤ cfg.max_cache_size →
      (SemanticCache.get cfg
        (putSeq cfg qs es ans (cfg.max_cache_size + 1)) (qs k)
        (es k)).1 =
        some ⟨ans k, [], "hybrid", [], k, true, 1, qs k⟩) := by
  obtain ⟨hzN, hmapsN⟩ := putSeq_invariant cfg qs es ans hinj
    cfg.max_cache_size (le_refl _)
  have hN1 : cfg.max_cache_size - 1 + 1 = cfg.max_cache_size := by omega
  have hlenN : (putSeq cfg qs es ans cfg.max_cache_size).zset.length =
      cfg.max_cache_size := by
    rw [hzN]
    simp
  have hev : cfg.max_cache_size ≤
      (putSeq cfg qs es ans cfg.max_cache_size).zset.length := by
    rw [hlenN]
  have hdrop : (putSeq cfg qs es ans cfg.max_cache_size).zset.drop 1 =
      (List.range (cfg.max_cache_size - 1)).map
        (fun j => (cfg.qid (qs (j + 1)), j + 1)) := by
    rw [hzN]
    conv_lhs => rw [← hN1, List.range_succ_eq_map]
    simp [List.map_map]
  have hfresh2 : ∀ r ∈
      (putSeq cfg qs es ans cfg.max_cache_size).zset.drop 1,
      r.1 ≠ cfg.qid (qs cfg.max_cache_size) := by
    intro r hr
    rw [hdrop] at hr
    rcases List.mem_map.mp hr with ⟨j, hjm, rfl⟩
    have hj := List.mem_range.mp hjm
    intro heq
    have := hinj (j + 1) cfg.max_cache_size (by omega) (le_refl _) heq
    omega
  have hscore2 : ∀ r ∈
      (putSeq cfg qs es ans cfg.max_cache_size).zset.drop 1,
      r.2 < cfg.max_cache_size := by
    intro r hr
    rw [hdrop] at hr
    rcases List.mem_map.mp hr with ⟨j, hjm, rfl⟩
    have hj := List.mem_range.mp hjm
    omega
  have hzadd2 := zadd_append
    ((putSeq cfg qs es ans cfg.max_cache_size).zset.drop 1)
    (cfg.qid (qs cfg.max_cache_size)) cfg.max_cache_size hscore2 hfresh2
  have hfz : (putSeq cfg qs es ans (cfg.max_cache_size + 1)).zset =
      (List.range cfg.max_cache_size).map
        (fun j => (cfg.qid (qs (j + 1)), j + 1)) := by
    show (SemanticCache.set cfg (putSeq cfg qs es ans cfg.max_cache_size)
      (qs cfg.max_cache_size) (es cfg.max_cache_size)
      (ans cfg.max_cache_size) [] "hybrid" []
      cfg.max_cache_size).2.zset = _
    rw [set_zset_eq, if_pos hev, hzadd2, hdrop]
    conv_rhs => rw [← hN1, List.range_succ, List.map_append]
    simp [hN1]
  have hFemb : ∀ j, j ≤ cfg.max_cache_size →
      (putSeq cfg qs es ans (cfg.max_cache_size + 1)).embeddings
        (cfg.qid (qs j)) = some (.valid (es j)) := by
    intro j hj
    show (SemanticCache.set cfg (putSeq cfg qs es ans cfg.max_cache_size)
      (qs cfg.max_cache_size) (es cfg.max_cache_size)
      (ans cfg.max_cache_size) [] "hybrid" []
      cfg.max_cache_size).2.embeddings (cfg.qid (qs j)) = _
    rw [set_embeddings_eq]
    rcases Nat.lt_or_ge j cfg.max_cache_size with hlt | hge
    · have hne : cfg.qid (qs j) ≠ cfg.qid (qs cfg.max_cache_size) := by
        intro heq
        have := hinj j cfg.max_cache_size (by omega) (le_refl _) heq
        omega
      simp only [hne, if_false]
      exact (hmapsN j hlt).1
    · have hj2 : j = cfg.max_cache_size := by omega
      subst hj2
      simp
  have hFq : ∀ j, j ≤ cfg.max_cache_size →
      (putSeq cfg qs es ans (cfg.max_cache_size + 1)).queries
        (cfg.qid (qs j)) = some (qs j) := by
    intro j hj
    show (SemanticCache.set cfg (putSeq cfg qs es ans cfg.max_cache_size)
      (qs cfg.max_cache_size) (es cfg.max_cache_size)
      (ans cfg.max_cache_size) [] "hybrid" []
      cfg.max_cache_size).2.queries (cfg.qid (qs j)) = _
    rw [set_queries_eq]
    rcases Nat.lt_or_ge j cfg.max_cache_size with hlt | hge
    · have hne : cfg.qid (qs j) ≠ cfg.qid (qs cfg.max_cache_size) := by
        intro heq
        have := hinj j cfg.max_cache_size (by omega) (le_refl _) heq
        omega
      simp only [hne, if_false]
      exact (hmapsN j hlt).2.1
    · have hj2 : j = cfg.max_cache_size := by omega
      subst hj2
      simp
  have hFans : ∀ j, j ≤ cfg.max_cache_size →
      (putSeq cfg qs es ans (cfg.max_cache_size + 1)).answers
        (cfg.qid (qs j)) = some ⟨ans j, [], "hybrid", [], j⟩ := by
    intro j hj
    show (SemanticCache.set cfg (putSeq cfg qs es ans cfg.max_cache_size)
      (qs cfg.max_cache_size) (es cfg.max_cache_size)
      (ans cfg.max_cache_size) [] "hybrid" []
      cfg.max_cache_size).2.answers (cfg.qid (qs j)) = _
    rw [set_answers_eq]
    rcases Nat.lt_or_ge j cfg.max_cache_size with hlt | hge
    · have hne : cfg.qid (qs j) ≠ cfg.qid (qs cfg.max_cache_size) := by
        intro heq
        have := hinj j cfg.max_cache_size (by omega) (le_refl _) heq
        omega
      simp only [hne, if_false]
      exact (hmapsN j hlt).2.2
    · have hj2 : j = cfg.max_cache_size := by omega
      subst hj2
      simp
  have hidsF : (putSeq cfg qs es ans
      (cfg.max_cache_size + 1)).zset.map Prod.fst =
      (List.range cfg.max_cache_size).map
        (fun j => cfg.qid (qs (j + 1))) := by
    rw [hfz, List.map_map]
    rfl
  have hliveF : ∀ qv : List ℝ,
      liveEntries (putSeq cfg qs es ans
          (cfg.max_cache_size + 1)).embeddings qv
        ((putSeq cfg qs es ans (cfg.max_cache_size + 1)).zset.map
          Prod.fst) =
      (List.range cfg.max_cache_size).map
        (fun j => (cfg.qid (qs (j + 1)),
          cosine_similarity qv (es (j + 1)))) := by
    intro qv
    rw [hidsF]
    have haux : ∀ l : List ℕ, (∀ j ∈ l, j < cfg.max_cache_size) →
        liveEntries (putSeq cfg qs es ans
            (cfg.max_cache_size + 1)).embeddings qv
          (l.map (fun j => cfg.qid (qs (j + 1)))) =
        l.map (fun j => (cfg.qid (qs (j + 1)),
          cosine_similarity qv (es (j + 1)))) := by
      intro l
      induction l with
      | nil => intro _; rfl
      | cons a l2 ih2 =>
        intro hb
        have ha : a + 1 ≤ cfg.max_cache_size := by
          have := hb a (by simp)
          omega
        have ih3 := ih2 (fun j hj => hb j (by simp [hj]))
        simp only [liveEntries] at ih3
        simp only [List.map_cons, liveEntries, List.filterMap_cons,
          hFemb (a + 1) ha]
        rw [ih3]
    exact haux (List.range cfg.max_cache_size)
      (fun j hj => List.mem_range.mp hj)
  have hnc3 : ∀ id ∈ (putSeq cfg qs es ans
      (cfg.max_cache_size + 1)).zset.map Prod.fst,
      (putSeq cfg qs es ans (cfg.max_cache_size + 1)).embeddings id ≠
        some .corrupt := by
    intro id hid
    rw [hidsF] at hid
    rcases List.mem_map.mp hid with ⟨j, hjm, rfl⟩
    have hj := List.mem_range.mp hjm
    rw [hFemb (j + 1) (by omega)]
    simp
  have hneF : ¬ ((putSeq cfg qs es ans
      (cfg.max_cache_size + 1)).zset.map Prod.fst).isEmpty := by
    rw [hidsF]
    intro habs
    rw [List.isEmpty_iff] at habs
    have h0 := List.map_eq_nil.mp habs
    rw [List.range_eq_nil] at h0
    omega
  refine ⟨?_, ?_, ?_⟩
  · rw [hfz]
    simp
  · have hscan := scanBest_eq_foldScan
      (putSeq cfg qs es ans (cfg.max_cache_size + 1)).embeddings (es 0)
      ((putSeq cfg qs es ans (cfg.max_cache_size + 1)).zset.map Prod.fst)
      0 none hnc3
    have halllt : ∀ p ∈ liveEntries
        (putSeq cfg qs es ans (cfg.max_cache_size + 1)).embeddings (es 0)
        ((putSeq cfg qs es ans (cfg.max_cache_size + 1)).zset.map
          Prod.fst), p.2 < cfg.similarity_threshold := by
      intro p hp
      rw [hliveF (es 0)] at hp
      rcases List.mem_map.mp hp with ⟨j, hjm, rfl⟩
      have hj := List.mem_range.mp hjm
      exact hsim (j + 1) 0 (by omega) (by omega) (by omega)
    have hflt := foldScan_lt
      (liveEntries (putSeq cfg qs es ans
        (cfg.max_cache_size + 1)).embeddings (es 0)
        ((putSeq cfg qs es ans (cfg.max_cache_size + 1)).zset.map
          Prod.fst)) 0 none cfg.similarity_threshold hth0 halllt
    constructor
    · simp only [SemanticCache.get, hneF, Bool.false_eq_true, if_false,
        hscan]
      rw [if_pos hflt]
    · simp only [SemanticCache.get, hneF, Bool.false_eq_true, if_false,
        hscan]
      rw [if_pos hflt]
  · intro k hk1 hkN
    have hk1e : k - 1 + 1 = k := by omega
    have hscan := scanBest_eq_foldScan
      (putSeq cfg qs es ans (cfg.max_cache_size + 1)).embeddings (es k)
      ((putSeq cfg qs es ans (cfg.max_cache_size + 1)).zset.map Prod.fst)
      0 none hnc3
    have hLmap := hliveF (es k)
    have hlenL : (liveEntries (putSeq cfg qs es ans
        (cfg.max_cache_size + 1)).embeddings (es k)
        ((putSeq cfg qs es ans (cfg.max_cache_size + 1)).zset.map
          Prod.fst)).length = cfg.max_cache_size := by
      rw [hLmap]
      simp
    have hkL : k - 1 < (liveEntries (putSeq cfg qs es ans
        (cfg.max_cache_size + 1)).embeddings (es k)
        ((putSeq cfg qs es ans (cfg.max_cache_size + 1)).zset.map
          Prod.fst)).length := by
      omega
    have hself : cosine_similarity (es k) (es k) = 1 :=
      cosine_similarity_self _ (hdot k hkN)
    have hgetk : (liveEntries (putSeq cfg qs es ans
        (cfg.max_cache_size + 1)).embeddings (es k)
        ((putSeq cfg qs es ans (cfg.max_cache_size + 1)).zset.map
          Prod.fst)).get ⟨k - 1, hkL⟩ = (cfg.qid (qs k), 1) := by
      rw [List.get_of_eq hLmap]
      simp only [List.get_eq_getElem, List.getElem_map,
        List.getElem_range, hk1e, hself]
    have hdecomp := List.take_append_drop (k - 1)
      (liveEntries (putSeq cfg qs es ans
        (cfg.max_cache_size + 1)).embeddings (es k)
        ((putSeq cfg qs es ans (cfg.max_cache_size + 1)).zset.map
          Prod.fst))
    have htake : ∀ p ∈ (liveEntries (putSeq cfg qs es ans
        (cfg.max_cache_size + 1)).embeddings (es k)
        ((putSeq cfg qs es ans (cfg.max_cache_size + 1)).zset.map
          Prod.fst)).take (k - 1), p.2 < 1 := by
      intro p hp
      rcases List.mem_iff_get.mp hp with ⟨⟨idx, hidx⟩, hpe⟩
      have hidxk : idx < k - 1 := by
        have h2 := hidx
        rw [List.length_take] at h2
        exact lt_of_lt_of_le h2 (min_le_left _ _)
      have hidxL : idx < (liveEntries (putSeq cfg qs es ans
          (cfg.max_cache_size + 1)).embeddings (es k)
          ((putSeq cfg qs es ans (cfg.max_cache_size + 1)).zset.map
            Prod.fst)).length := by
        omega
      have hget2 : ((liveEntries (putSeq cfg qs es ans
          (cfg.max_cache_size + 1)).embeddings (es k)
          ((putSeq cfg qs es ans (cfg.max_cache_size + 1)).zset.map
            Prod.fst)).take (k - 1)).get ⟨idx, hidx⟩ =
          (liveEntries (putSeq cfg qs es ans
          (cfg.max_cache_size + 1)).embeddings (es k)
          ((putSeq cfg qs es ans (cfg.max_cache_size + 1)).zset.map
            Prod.fst)).get ⟨idx, hidxL⟩ := List.get_take' _
      have hgv : (liveEntries (putSeq cfg qs es ans
          (cfg.max_cache_size + 1)).embeddings (es k)
          ((putSeq cfg qs es ans (cfg.max_cache_size + 1)).zset.map
            Prod.fst)).get ⟨idx, hidxL⟩ =
          (cfg.qid (qs (idx + 1)),
            cosine_similarity (es k) (es (idx + 1))) := by
        rw [List.get_of_eq hLmap]
        simp only [List.get_eq_getElem, List.getElem_map,
          List.getElem_range]
      rw [hget2, hgv] at hpe
      rw [← hpe]
      have hlt2 : cosine_similarity (es k) (es (idx + 1)) <
          cfg.similarity_threshold :=
        hsim (idx + 1) k (by omega) hkN (by omega)
      exact lt_of_lt_of_le hlt2 hth1
    have hdropLe : ∀ p ∈ (liveEntries (putSeq cfg qs es ans
        (cfg.max_cache_size + 1)).embeddings (es k)
        ((putSeq cfg qs es ans (cfg.max_cache_size + 1)).zset.map
          Prod.fst)).drop (k - 1 + 1), p.2 ≤ 1 := by
      intro p hp
      have hpL := List.drop_subset (k - 1 + 1) _ hp
      rw [hLmap] at hpL
      rcases List.mem_map.mp hpL with ⟨j, hjm, rfl⟩
      have hj := List.mem_range.mp hjm
      by_cases hjk : j + 1 = k
      · simp only [hjk, hself]
        exact le_refl 1
      · have hlt2 := hsim (j + 1) k (by omega) hkN hjk
        exact le_of_lt (lt_of_lt_of_le hlt2 hth1)
    have hfold : foldScan (liveEntries (putSeq cfg qs es ans
        (cfg.max_cache_size + 1)).embeddings (es k)
        ((putSeq cfg qs es ans (cfg.max_cache_size + 1)).zset.map
          Prod.fst)) (0, none) = (1, some (cfg.qid (qs k))) := by
      have hmain := foldScan_first_max
        ((liveEntries (putSeq cfg qs es ans
          (cfg.max_cache_size + 1)).embeddings (es k)
          ((putSeq cfg qs es ans (cfg.max_cache_size + 1)).zset.map
            Prod.fst)).take (k - 1))
        ((liveEntries (putSeq cfg qs es ans
          (cfg.max_cache_size + 1)).embeddings (es k)
          ((putSeq cfg qs es ans (cfg.max_cache_size + 1)).zset.map
            Prod.fst)).drop (k - 1 + 1))
        ((liveEntries (putSeq cfg qs es ans
          (cfg.max_cache_size + 1)).embeddings (es k)
          ((putSeq cfg qs es ans (cfg.max_cache_size + 1)).zset.map
            Prod.fst)).get ⟨k - 1, hkL⟩) 0 none
        (by rw [hgetk]; norm_num)
        (by intro r hr; rw [hgetk]; exact htake r hr)
        (by intro r hr; rw [hgetk]; exact hdropLe r hr)
      conv_lhs =>
        rw [← hdecomp, List.drop_eq_get_cons hkL]
      rw [hmain, hgetk]
    rw [hfold] at hscan
    have hnl : ¬ (1 : ℝ) < cfg.similarity_threshold := not_lt.mpr hth1
    have hansk := hFans k hkN
    have hqk := hFq k hkN
    simp only [SemanticCache.get, hneF, Bool.false_eq_true, if_false,
      hscan, hnl, idStr, hansk, hqk]

/-- Concrete run of claim C3 with `max_cache_size = 1`: inserting two
distinct questions leaves one entry; the first question misses, the second
still hits with its own answer. -/
theorem claim_C3_capacity_fifo_eviction_witness :
    (putSeq ⟨3600, 19 / 20, 1, fun s => s⟩
      (fun k => if k = 0 then "q0" else "q1")
      (fun k => if k = 0 then [1, 0] else [0, 1])
      (fun k => if k = 0 then "A0" else "A1") 2).zset.length = 1 ∧
    (SemanticCache.get ⟨3600, 19 / 20, 1, fun s => s⟩
      (putSeq ⟨3600, 19 / 20, 1, fun s => s⟩
        (fun k => if k = 0 then "q0" else "q1")
        (fun k => if k = 0 then [1, 0] else [0, 1])
        (fun k => if k = 0 then "A0" else "A1") 2)
      "q0" [1, 0]).1 = none ∧
    (SemanticCache.get ⟨3600, 19 / 20, 1, fun s => s⟩
      (putSeq ⟨3600, 19 / 20, 1, fun s => s⟩
        (fun k => if k = 0 then "q0" else "q1")
        (fun k => if k = 0 then [1, 0] else [0, 1])
        (fun k => if k = 0 then "A0" else "A1") 2)
      "q1" [0, 1]).1 =
      some ⟨"A1", [], "hybrid", [], 1, true, 1, "q1"⟩ := by
  have hn10 : vnorm [(1 : ℝ), 0] = 1 := by
    rw [vnorm, show dot [(1 : ℝ), 0] [(1 : ℝ), 0] = 1 by norm_num [dot],
      Real.sqrt_one]
  have hn01 : vnorm [(0 : ℝ), 1] = 1 := by
    rw [vnorm, show dot [(0 : ℝ), 1] [(0 : ℝ), 1] = 1 by norm_num [dot],
      Real.sqrt_one]
  have hc01 : cosine_similarity [(0 : ℝ), 1] [(1 : ℝ), 0] = 0 := by
    rw [cosine_similarity, if_neg (by rw [hn01, hn10]; norm_num), hn01,
      hn10]
    norm_num [dot]
  have hc10 : cosine_similarity [(1 : ℝ), 0] [(0 : ℝ), 1] = 0 := by
    rw [cosine_similarity, if_neg (by rw [hn10, hn01]; norm_num), hn10,
      hn01]
    norm_num [dot]
  have h := claim_C3_capacity_fifo_eviction
    ⟨3600, 19 / 20, 1, fun s => s⟩
    (fun k => if k = 0 then "q0" else "q1")
    (fun k => if k = 0 then [1, 0] else [0, 1])
    (fun k => if k = 0 then "A0" else "A1")
    (le_refl 1) (by norm_num) (by norm_num)
    (by
      intro j k hj hk heq
      interval_cases j <;> interval_cases k
      · rfl
      · simp at heq
      · simp at heq
      · rfl)
    (by
      intro k hk
      interval_cases k
      · show dot [(1 : ℝ), 0] [(1 : ℝ), 0] ≠ 0
        norm_num [dot]
      · show dot [(0 : ℝ), 1] [(0 : ℝ), 1] ≠ 0
        norm_num [dot])
    (by
      intro j k hj hk hne
      interval_cases j <;> interval_cases k
      · exact absurd rfl hne
      · show cosine_similarity [(0 : ℝ), 1] [(1 : ℝ), 0] < 19 / 20
        rw [hc01]
        norm_num
      · show cosine_similarity [(1 : ℝ), 0] [(0 : ℝ), 1] < 19 / 20
        rw [hc10]
        norm_num
      · exact absurd rfl hne)
  exact ⟨h.1, h.2.1.1, h.2.2 1 (le_refl 1) (le_refl 1)⟩

end Neo4jRAG
